import Mathlib

/-!
Verification of the BlendSearch/CFO scheduling coordinator
(`flaml/searcher/blendsearch.py`).

Shallow-embedding conventions:

* Numeric values are rationals (`ℚ`); Python float literals such as `1e10`
  become exact rationals.  The IEEE infinity that appears in
  `self._metric_target` (initialised to `np.inf * metric_op`) is embedded by
  the three-valued `ExtQ` type; all other values handled by the coordinator
  are finite.
* Python `dict`s become association lists with insertion-order semantics:
  `aget`, `aset`, `aerase`, `aupdate` mirror `d.get(k)`, `d[k] = v`
  (replace in place, append when fresh), `del d[k]`, and `d.update(e)`.
* The collaborators whose code lives outside this file's source
  (`FLOW2`, `SearchThread`, the global search engine) enter as parameters:
  the `LS` structure carries the local-search interface used by the
  coordinator (`normalize`, `config_signature`, `complete_config`, `create`,
  `metric_op`, `STEPSIZE`, `reach`, ...) and per-call oracle records supply
  the data produced by `SearchThread.suggest` and by the priority-based
  thread selection.  Collaborator-internal mutation of a thread's statistics
  is modelled by oracle functions `Thread → Thread` applied at the points
  where the coordinator notifies the thread.
* Python exceptions (KeyError, ValueError, AssertionError) are modelled by
  an `Option String` error component; the state returned alongside an error
  is the state at the moment the exception is raised, so mutations performed
  before the raising statement are kept, exactly as in Python.
-/

/-- A configuration: parameter name to value, as produced by the search. -/
abbrev Config := List (String × ℚ)

/-- A (possibly partial) trial result record, e.g. metric and cost fields. -/
abbrev TResult := List (String × ℚ)

/-- A per-dimension box bound in normalized space (dimension name → bound). -/
abbrev Box := List (String × ℚ)

/-- Python `d.get(k)` on an association list. -/
def aget {α β : Type} [DecidableEq α] (k : α) : List (α × β) → Option β
  | [] => none
  | p :: ps => if p.1 = k then some p.2 else aget k ps

/-- The key list of an association list (Python `d.keys()`, insertion order). -/
def akeys {α β : Type} (l : List (α × β)) : List α := l.map Prod.fst

/-- Python `d[k] = v`: replace the binding in place, append when `k` is fresh. -/
def aset {α β : Type} [DecidableEq α] (k : α) (v : β) : List (α × β) → List (α × β)
  | [] => [(k, v)]
  | p :: ps => if p.1 = k then (k, v) :: ps else p :: aset k v ps

/-- Python `del d[k]` (our call sites guard membership where Python would not raise). -/
def aerase {α β : Type} [DecidableEq α] (k : α) (l : List (α × β)) : List (α × β) :=
  l.filter (fun p => ¬ p.1 = k)

/-- Python `d.update(e)`: set every binding of `e` into `d`, in order. -/
def aupdate {α β : Type} [DecidableEq α] (d e : List (α × β)) : List (α × β) :=
  e.foldl (fun b p => aset p.1 p.2 b) d

/-- Read a numeric field, defaulting to `0`; used where the source guarantees
presence (a Python `KeyError` is modelled explicitly at the sites where it can
actually fire). -/
def qget {α : Type} [DecidableEq α] (k : α) (l : List (α × ℚ)) : ℚ :=
  (aget k l).getD 0

/-- A rational extended with the two IEEE infinities, used only for
`self._metric_target` (initialised to `np.inf * metric_op`). -/
inductive ExtQ : Type where
  | fin (q : ℚ)
  | inf
  | ninf
deriving DecidableEq

/-- `np.inf * metric_op` for `metric_op ∈ {+1, −1}`. -/
def ExtQ.infTimes (op : ℚ) : ExtQ := if 0 < op then .inf else .ninf

/-- `(objective - self._metric_target) * metric_op < 0` with a finite
`objective`, following IEEE arithmetic on the infinite target. -/
def ExtQ.improvedBy (target : ExtQ) (obj op : ℚ) : Bool :=
  match target with
  | .fin t => decide ((obj - t) * op < 0)
  | .inf => decide (0 < op)
  | .ninf => decide (op < 0)

/-- The coordinator-visible statistics of a `SearchThread` collaborator
(`obj_best1`, `obj_best2`, `resource`, `converged`, `running`). -/
structure Thread : Type where
  obj_best1 : ℚ
  obj_best2 : ℚ
  resource : Option ℚ
  converged : Bool
  running : ℕ
deriving DecidableEq

/-- The interface of the local-search collaborator `self._ls` (FLOW2) together
with the thread-level `reach` predicate, as used by the coordinator.
`create c obj cost` bundles `SearchThread(mode, self._ls.create(c, obj, cost))`
into the thread statistics of the freshly created local thread. -/
structure LS : Type where
  metric : String
  metric_op : ℚ
  STEPSIZE : ℚ
  init_config : Config
  normalize : Config → Config
  config_signature : Config → Config
  complete_config : Config → Box → Box → Config
  create : Config → ℚ → ℚ → Thread
  reach : Thread → Thread → Bool
  has_resource : Bool
  prune_attr : String
  min_resource : ℚ

/-- Python truthiness of `t1.resource` (`None` and `0.0` are falsy). -/
def resourceTruthy : Option ℚ → Bool
  | none => false
  | some q => decide (q ≠ 0)

/-- `t1.resource < t2.resource` on optional resources.  In the source both
operands are comparable whenever the comparison is reached; a `None` right
operand would raise in Python 3 and is returned as `false` here. -/
def optLt : Option ℚ → Option ℚ → Bool
  | some a, some b => decide (a < b)
  | _, _ => false

/-- `BlendSearch._inferior` (blendsearch.py lines 412–423), on the statistics
of the two looked-up threads; `reach` is the collaborator predicate
`t2.reach(t1)`. -/
def _inferior (reach : Thread → Thread → Bool) (t1 t2 : Thread) : Bool :=
  if t1.obj_best1 < t2.obj_best2 then false
  else if resourceTruthy t1.resource && optLt t1.resource t2.resource then false
  else if reach t2 t1 then true
  else false

/-- Loop body of `BlendSearch._valid` (blendsearch.py lines 588–598):
iterate over the keys of `self._gs_admissible_min`. -/
def validLoop (step : ℚ) (normalized config gmin gmax : List (String × ℚ)) :
    List String → Bool
  | [] => true
  | k :: ks =>
    if k ∈ akeys config then
      let value := qget k normalized
      if value + step < qget k gmin ∨ qget k gmax + step < value then false
      else validLoop step normalized config gmin gmax ks
    else validLoop step normalized config gmin gmax ks

/-- `BlendSearch._valid` (blendsearch.py lines 588–598). -/
def _valid (ls : LS) (gmin gmax : Box) (config : Config) : Bool :=
  validLoop ls.STEPSIZE (ls.normalize config) config gmin gmax (akeys gmin)

/-- A concrete local-search collaborator used for the claims' concrete
instances: identity normalization, slack `0.01`. -/
def testLS : LS where
  metric := "metric"
  metric_op := 1
  STEPSIZE := 1/100
  init_config := []
  normalize := fun c => c
  config_signature := fun c => c
  complete_config := fun c _ _ => c
  create := fun _ _ _ => ⟨0, 0, none, false, 0⟩
  reach := fun _ _ => false
  has_resource := false
  prune_attr := "resource"
  min_resource := 0

/-- `BlendSearch.lagrange`: suffix for the lagrange-modified metric. -/
def lagrangeSuffix : String := "_lagrange"

/-- `BlendSearch.penalty`: the initial (and maximal) penalty term, `1e+10`. -/
def blendPenalty : ℚ := 10000000000

/-- `BlendSearch.cost_attr`: the cost attribute in a result record. -/
def cost_attr : String := "time_total_s"

/-- Python truthiness of an optional result record (`None` and the empty
placeholder dict are falsy). -/
def resTruthy : Option TResult → Bool
  | none => false
  | some r => decide (r ≠ [])

/-- Python truthiness of `self._candidate_start_points` (absent = `None`). -/
def candTruthy : Option (List (String × Option TResult)) → Bool
  | none => false
  | some l => decide (l ≠ [])

/-- Python `s.startswith(pre)`, on the character sequence (Python string
indexing is character-based). -/
def strStartsWith (s pre : String) : Bool := pre.data.isPrefixOf s.data

/-- Python `s[n:]`, on the character sequence. -/
def strDrop (s : String) (n : ℕ) : String := ⟨s.data.drop n⟩

/-- Reconstruct a configuration from a result record: the `config/<name>`
namespacing convention (blendsearch.py lines 283–286). -/
def configOfResult (r : TResult) : Config :=
  r.filterMap (fun p =>
    if strStartsWith p.1 "config/" then some (strDrop p.1 7, p.2) else none)

/-- The mutable coordinator state of `BlendSearch` (the fields assigned in
`__init__`/`_init_search`).  Fields only read by collaborator-owned logic
(`_deadline`, the wrapped engines) are omitted; the priority-driven parts of
`_select_thread` that read them are supplied by per-call oracles. -/
structure BState : Type where
  metric : String
  search_thread_pool : List (ℕ × Thread)
  thread_count : ℕ
  init_used : Bool
  trial_proposed_by : List (String × ℕ)
  ls_bound_min : Box
  ls_bound_max : Box
  gs_admissible_min : Box
  gs_admissible_max : Box
  result : List (Config × TResult)
  metric_target : ExtQ
  metric_constraints : List (String × String × ℚ)
  metric_constraint_satisfied : Bool
  metric_constraint_penalty : List ℚ
  points_to_evaluate : List Config
  candidate_start_points : Option (List (String × Option TResult))
  started_from_given : Bool
  started_from_low_cost : Bool
  config_constraints : List ((Config → ℚ) × String × ℚ)

/-- The `for i, constraint in enumerate(self._metric_constraints)` loop of
`on_trial_complete` (blendsearch.py lines 258–271): walks the constraints
with the aligned penalty weights, accumulating into `objective` and
clearing `metric_constraint_satisfied` on any positive violation.  Returns
the final objective, the updated penalty list, and the loop-local
satisfied flag. -/
def mcLoop (op big : ℚ) (r : TResult) :
    List (String × String × ℚ) → List ℚ → ℚ → ℚ × List ℚ × Bool
  | [], _, obj => (obj, [], true)
  | (name, sign, threshold) :: cs, ps, obj =>
    let p := ps.headD 0
    let value := qget name r
    if value ≠ 0 then
      let sign_op : ℚ := if sign = "<=" then 1 else -1
      let violation := (value - threshold) * sign_op
      if 0 < violation then
        let rec1 := mcLoop op big r cs ps.tail (obj + p * violation * op)
        (rec1.1, (if p < big then p + violation else p) :: rec1.2.1, false)
      else
        let rec1 := mcLoop op big r cs ps.tail obj
        (rec1.1, p :: rec1.2.1, rec1.2.2)
    else
      let rec1 := mcLoop op big r cs ps.tail obj
      (rec1.1, p :: rec1.2.1, rec1.2.2)

/-- The metric-constraint block of `on_trial_complete` (blendsearch.py lines
254–276), entered when the result is truthy, `error` is false and metric
constraints are configured.  Returns `none` on the `result[self._metric]`
KeyError; otherwise the updated result record (with the lagrange-derived
metric recorded), the new penalty list, the new sticky satisfied flag, and
the call-local `metric_constraint_satisfied` value. -/
def metricConstraintsBlock (op : ℚ) (s : BState) (r : TResult) :
    Option (TResult × List ℚ × Bool × Bool) :=
  match aget s.metric r with
  | none => none
  | some obj0 =>
    let res := mcLoop op blendPenalty r s.metric_constraints s.metric_constraint_penalty obj0
    let r' := aset (s.metric ++ lagrangeSuffix) res.1 r
    let pens := if res.2.2 ∧ ¬s.metric_constraint_satisfied
      then s.metric_constraints.map (fun _ => (1 : ℚ)) else res.2.1
    some (r', pens, s.metric_constraint_satisfied || res.2.2, res.2.2)

/-- `np.median` of a list of rationals: sort, take the middle element, or the
mean of the two middle elements for even length. -/
def npMedian (xs : List ℚ) : ℚ :=
  let ys := xs.mergeSort (fun a b => decide (a ≤ b))
  if ys.length % 2 = 1 then ys.getD (ys.length / 2) 0
  else (ys.getD (ys.length / 2 - 1) 0 + ys.getD (ys.length / 2) 0) / 2

/-- `BlendSearch._create_condition` (blendsearch.py lines 340–348).  The
`Option` is for uniformity with the CFO override, which can raise. -/
def _create_condition (ls : LS) (s : BState) (result : TResult) : Option Bool :=
  if s.search_thread_pool.length < 2 then some true
  else
    let obj_median := npMedian
      ((s.search_thread_pool.filter (fun p => p.1 ≠ 0)).map (fun p => p.2.obj_best1))
    some (decide (qget ls.metric result * ls.metric_op < obj_median))

/-- Python `min` over a list (`none` models the ValueError on an empty
sequence). -/
def listMin : List ℚ → Option ℚ
  | [] => none
  | x :: xs => some (xs.foldl min x)

/-- `CFO._create_condition` (blendsearch.py lines 705–722).  `none` models an
exception escaping the call: the ValueError of `min` over an empty sequence,
or the KeyError of `r[self._ls.metric]` on a truthy candidate result that
lacks the metric. -/
def _create_condition_cfo (ls : LS) (s : BState) (result : TResult) : Option Bool :=
  if s.points_to_evaluate ≠ [] then some false
  else if s.search_thread_pool.length = 2 then some false
  else if candTruthy s.candidate_start_points ∧ s.thread_count = 1 then
    let cands := s.candidate_start_points.getD []
    if cands.any (fun p => resTruthy p.2 ∧ aget ls.metric (p.2.getD []) = none) then none
    else
      let objs := cands.filterMap (fun p =>
        if resTruthy p.2 then some (ls.metric_op * qget ls.metric (p.2.getD [])) else none)
      match listMin objs with
      | none => none
      | some obj_best => some (decide (qget ls.metric result * ls.metric_op ≤ obj_best))
  else some true

/-- Loop of `BlendSearch._update_admissible_region` (blendsearch.py lines
330–338): for each key of `admissible_min`, widen `admissible_max` upward or
`admissible_min` downward to cover the normalized value. -/
def updateARLoop (nc : Config) : List String → Box → Box → Box × Box
  | [], amin, amax => (amin, amax)
  | k :: ks, amin, amax =>
    let value := qget k nc
    if qget k amax < value then updateARLoop nc ks amin (aset k value amax)
    else if value < qget k amin then updateARLoop nc ks (aset k value amin) amax
    else updateARLoop nc ks amin amax

/-- `BlendSearch._update_admissible_region` (blendsearch.py lines 330–338). -/
def _update_admissible_region (ls : LS) (config : Config) (amin amax : Box) :
    Box × Box :=
  updateARLoop (ls.normalize config) (akeys amin) amin amax

/-- Loop of `BlendSearch._expand_admissible_region` (blendsearch.py lines
407–410): for each key of `self._ls_bound_max`, move the max up and the min
down by `self._ls.STEPSIZE`. -/
def expandARLoop (step : ℚ) : List String → Box → Box → Box × Box
  | [], bmin, bmax => (bmin, bmax)
  | k :: ks, bmin, bmax =>
    expandARLoop step ks (aset k (qget k bmin - step) bmin) (aset k (qget k bmax + step) bmax)

/-- `BlendSearch._expand_admissible_region` (blendsearch.py lines 407–410). -/
def _expand_admissible_region (ls : LS) (bmin bmax : Box) : Box × Box :=
  expandARLoop ls.STEPSIZE (akeys bmax) bmin bmax

/-- `BlendSearch._create_thread` (blendsearch.py lines 317–328): register a
new local thread under id `self._thread_count`, bump the count, and grow the
local bounding box to cover the anchor configuration.  The caller has
already established that `result[self._ls.metric]` is present. -/
def _create_thread (ls : LS) (config : Config) (result : TResult) (s : BState) : BState :=
  let cost := (aget cost_attr result).getD 1
  let newThread := ls.create config (qget ls.metric result) cost
  let bounds := _update_admissible_region ls config s.ls_bound_min s.ls_bound_max
  { s with
    search_thread_pool := aset s.thread_count newThread s.search_thread_pool,
    thread_count := s.thread_count + 1,
    ls_bound_min := bounds.1,
    ls_bound_max := bounds.2 }

/-- The best-start-point scan of `_create_thread_from_best_candidate`
(blendsearch.py lines 389–395).  Every truthy candidate result encountered is
indexed at `self._ls.metric`, so a missing metric raises KeyError (`none`). -/
def bestScan (op : ℚ) (metric : String) :
    List (String × Option TResult) → Option String → ℚ → Option (Option String × ℚ)
  | [], best, obj => some (best, obj)
  | (tid, r?) :: rest, best, obj =>
    match r? with
    | none => bestScan op metric rest best obj
    | some r =>
      if r = [] then bestScan op metric rest best obj
      else
        match aget metric r with
        | none => none
        | some v =>
          let o := op * v
          if best = none ∨ o < obj then bestScan op metric rest (some tid) o
          else bestScan op metric rest best obj

/-- `BlendSearch._create_thread_from_best_candidate` (blendsearch.py lines
387–405).  The error component models the KeyError of `r[self._ls.metric]`
in the scan; Python string truthiness makes an empty trial id falsy. -/
def _create_thread_from_best_candidate (ls : LS) (s : BState) : BState × Option String :=
  let cands := s.candidate_start_points.getD []
  match bestScan ls.metric_op ls.metric cands none 0 with
  | none => (s, some "KeyError")
  | some scan =>
    match scan.1 with
    | none => (s, none)
    | some best_trial_id =>
      if best_trial_id = "" then (s, none)
      else
        let r := ((aget best_trial_id cands).getD none).getD []
        let config := configOfResult r
        let s1 := { s with
          started_from_given := true,
          candidate_start_points := some (aerase best_trial_id cands) }
        (_create_thread ls config r s1, none)

/-- The `worse` start-point pruning scan of `_clean` (blendsearch.py lines
372–379): after a thread converges, collect the candidate start points whose
recorded truthy result is no better than the converged objective.
Every truthy result is indexed at `self._ls.metric`; `none` is the KeyError. -/
def worseScan (op : ℚ) (metric : String) (obj : ℚ) :
    List (String × Option TResult) → Option (List String)
  | [] => some []
  | (tid, r?) :: rest =>
    match r? with
    | none => worseScan op metric obj rest
    | some r =>
      if r = [] then worseScan op metric obj rest
      else
        match aget metric r with
        | none => none
        | some v =>
          match worseScan op metric obj rest with
          | none => none
          | some ws => some (if obj ≤ v * op then tid :: ws else ws)

/-- The candidate-start-point block of `_clean` after a converged thread
(blendsearch.py lines 369–381): prune start points no better than the
converged objective `obj` and decide whether a replacement thread should be
spawned (the returned flag is `create_new`). -/
def cleanCandBlock (ls : LS) (obj : ℚ) (s1 : BState) : BState × Bool × Option String :=
  if candTruthy s1.candidate_start_points then
    if ¬ s1.started_from_given then
      match worseScan ls.metric_op ls.metric obj (s1.candidate_start_points.getD []) with
      | none => (s1, false, some "KeyError")
      | some worse =>
        let cands2 := (s1.candidate_start_points.getD []).filter (fun p => ¬ p.1 ∈ worse)
        let s2 := { s1 with candidate_start_points := some cands2 }
        (s2, candTruthy s2.candidate_start_points ∧ s2.started_from_low_cost, none)
    else
      (s1, candTruthy s1.candidate_start_points ∧ s1.started_from_low_cost, none)
  else (s1, false, none)

/-- `BlendSearch._clean` (blendsearch.py lines 350–385): delete threads
dominated by (or dominating) `tid`, and if `tid` has converged expand the
admissible region, prune candidate start points, and possibly spawn a
replacement thread from the best remaining candidate.  The error component
models the `assert thread_id` failure, the pool lookups, and the KeyErrors
of the candidate scans; as in Python, mutations made before the raising
statement are kept. -/
def _clean (ls : LS) (tid : ℕ) (s : BState) : BState × Option String :=
  if tid = 0 then (s, some "AssertionError")
  else
    match aget tid s.search_thread_pool with
    | none => (s, some "KeyError")
    | some tthread =>
      let todelete1 := (s.search_thread_pool.filter
        (fun p => p.1 ≠ 0 ∧ p.1 ≠ tid ∧ _inferior ls.reach p.2 tthread)).map Prod.fst
      let todelete2 := if s.search_thread_pool.any
        (fun p => p.1 ≠ 0 ∧ p.1 ≠ tid ∧ _inferior ls.reach tthread p.2)
        then [tid] else []
      if tthread.converged then
        let todelete := todelete1 ++ todelete2 ++ [tid]
        let bounds := _expand_admissible_region ls s.ls_bound_min s.ls_bound_max
        let s1 := { s with ls_bound_min := bounds.1, ls_bound_max := bounds.2 }
        match cleanCandBlock ls tthread.obj_best1 s1 with
        | (sc, _, some e) => (sc, some e)
        | (sc, create_new, none) =>
          let s3 := { sc with search_thread_pool :=
            sc.search_thread_pool.filter (fun p => ¬ p.1 ∈ todelete) }
          if create_new then _create_thread_from_best_candidate ls s3
          else (s3, none)
      else
        let todelete := todelete1 ++ todelete2
        let s3 := { s with search_thread_pool :=
          s.search_thread_pool.filter (fun p => ¬ p.1 ∈ todelete) }
        (s3, none)

/-- Per-call oracle for `on_trial_complete`: the collaborator-side effect of
`SearchThread.on_trial_complete` on the notified thread's statistics. -/
structure CompleteOracle : Type where
  notify : Thread → Thread

/-- Lines 310–311 of blendsearch.py: reset the global admissible box to the
local bounding box (`dict.update`; the key sets coincide throughout a run). -/
def gsSync (s : BState) : BState :=
  { s with gs_admissible_min := aupdate s.gs_admissible_min s.ls_bound_min,
           gs_admissible_max := aupdate s.gs_admissible_max s.ls_bound_max }

/-- Lines 312–315 of blendsearch.py: run `_clean` when the (possibly
reassigned) `thread_id` is a live local thread. -/
def cleanupStage (ls : LS) (tid? : Option ℕ) (s : BState) : BState × Option String :=
  match tid? with
  | some t =>
    if t ≠ 0 ∧ t ∈ akeys s.search_thread_pool then _clean ls t s else (s, none)
  | none => (s, none)

/-- Lines 277–281 of blendsearch.py: deliver the completion to the owning
thread (the oracle `notify` models `SearchThread.on_trial_complete`) and
drop the trial→thread mapping; returns the looked-up `thread_id` with the
updated state. -/
def notifyStage (o : CompleteOracle) (trial_id : String) (s : BState) :
    Option ℕ × BState :=
  match aget trial_id s.trial_proposed_by with
  | some t =>
    match aget t s.search_thread_pool with
    | some th =>
      (some t,
       { s with
         search_thread_pool := aset t (o.notify th) s.search_thread_pool,
         trial_proposed_by := aerase trial_id s.trial_proposed_by })
    | none => (some t, s)
  | none => (none, s)

/-- Lines 287–288 plus the cleaner (312–315) of blendsearch.py, for an error
completion with a truthy result: evict the signature from the result cache
(`del` raises KeyError when absent). -/
def completeError (ls : LS) (r : TResult) (tid? : Option ℕ) (s : BState) :
    BState × Option String :=
  let sig := ls.config_signature (configOfResult r)
  if sig ∈ akeys s.result then
    cleanupStage ls tid? { s with result := aerase sig s.result }
  else (s, some "KeyError")

/-- Lines 289–311 plus the cleaner (312–315) of blendsearch.py, for a
non-error completion with a truthy result: cache the result, update the
metric target, possibly spawn a local thread or expand the admissible
region, re-synchronize the global box, and run the pruning pass. -/
def completeNonError (ls : LS) (createCond : BState → TResult → Option Bool)
    (trial_id : String) (r : TResult) (tid? : Option ℕ) (mcs : Bool)
    (s : BState) : BState × Option String :=
  let config := configOfResult r
  let sig := ls.config_signature config
  let s := { s with result := aset sig r s.result }
  match aget ls.metric r with
  | none => (s, some "KeyError")
  | some objective =>
    let s := if s.metric_target.improvedBy objective ls.metric_op
      then { s with metric_target := .fin objective } else s
    if tid? = some 0 ∧ mcs then
      match createCond s r with
      | none => (s, some "ValueError")
      | some cond =>
        if cond then
          let newTid := s.thread_count
          let sfg := candTruthy s.candidate_start_points ∧
            trial_id ∈ akeys (s.candidate_start_points.getD [])
          let s := { s with started_from_given := sfg }
          let cands2 := some (aerase trial_id (s.candidate_start_points.getD []))
          let s := if sfg then { s with candidate_start_points := cands2 }
            else { s with started_from_low_cost := true }
          let s := _create_thread ls config r s
          cleanupStage ls (some newTid) (gsSync s)
        else cleanupStage ls tid? (gsSync s)
    else
      let s := if ((match tid? with | some t => decide (t ≠ 0) | none => false)
          && !s.metric_constraint_satisfied) then
          let bounds := _expand_admissible_region ls s.ls_bound_min s.ls_bound_max
          { s with ls_bound_min := bounds.1, ls_bound_max := bounds.2 }
        else s
      cleanupStage ls tid? (gsSync s)

/-- `BlendSearch.on_trial_complete` (blendsearch.py lines 250–315).
`createCond` is the dynamically dispatched `self._create_condition`
(overridden by CFO); `none` from it models an exception escaping that call.
The error component collects the KeyErrors of `result[self._metric]`,
`result[self._ls.metric]` and `del self._result[sig]`, and whatever
`_clean` raises. -/
def on_trial_complete (ls : LS) (createCond : BState → TResult → Option Bool)
    (o : CompleteOracle) (trial_id : String) (result? : Option TResult)
    (error : Bool) (s : BState) : BState × Option String :=
  -- lines 254–276: metric-constraint bookkeeping
  let blk : Option (Option TResult × BState × Bool) :=
    if resTruthy result? ∧ ¬error ∧ s.metric_constraints ≠ [] then
      match metricConstraintsBlock ls.metric_op s (result?.getD []) with
      | none => none
      | some out =>
        some (some out.1,
          { s with metric_constraint_penalty := out.2.1,
                   metric_constraint_satisfied := out.2.2.1 },
          out.2.2.2)
    else some (result?, s, true)
  match blk with
  | none => (s, some "KeyError")
  | some blkOut =>
    let result? := blkOut.1
    let mcs := blkOut.2.2
    let st := notifyStage o trial_id blkOut.2.1
    if resTruthy result? then
      if error then completeError ls (result?.getD []) st.1 st.2
      else completeNonError ls createCond trial_id (result?.getD []) st.1 mcs st.2
    else cleanupStage ls st.1 st.2

/-- `BlendSearch.on_trial_result` (blendsearch.py lines 425–435).  Its
assignment `result[self._metric + lagrange] = result[self._metric]` mutates
only the caller's record; the coordinator state changes only by forwarding
to the owning thread (the oracle `notify`).  The KeyError of the metric read
is surfaced. -/
def on_trial_result (notify : Thread → Thread) (trial_id : String)
    (result? : Option TResult) (s : BState) : BState × Option String :=
  match aget trial_id s.trial_proposed_by with
  | none => (s, none)
  | some tid =>
    match aget tid s.search_thread_pool with
    | none => (s, none)
    | some th =>
      if resTruthy result? ∧ s.metric_constraints ≠ [] then
        match aget s.metric (result?.getD []) with
        | none => (s, some "KeyError")
        | some _ =>
          ({ s with search_thread_pool := aset tid (notify th) s.search_thread_pool },
           none)
      else
        ({ s with search_thread_pool := aset tid (notify th) s.search_thread_pool },
         none)

/-- `CFO.on_trial_complete` (blendsearch.py lines 724–732): run the base
method, then record the result of a candidate start point and possibly spawn
a thread from the best recorded candidate. -/
def on_trial_complete_cfo (ls : LS) (o : CompleteOracle) (trial_id : String)
    (result? : Option TResult) (error : Bool) (s : BState) : BState × Option String :=
  let out := on_trial_complete ls (_create_condition_cfo ls) o trial_id result? error s
  match out.2 with
  | some e => (out.1, some e)
  | none =>
    let s := out.1
    if candTruthy s.candidate_start_points ∧
        trial_id ∈ akeys (s.candidate_start_points.getD []) then
      let cands2 := some (aset trial_id result? (s.candidate_start_points.getD []))
      let s := { s with candidate_start_points := cands2 }
      if s.search_thread_pool.length < 2 ∧ s.points_to_evaluate = [] then
        _create_thread_from_best_candidate ls s
      else (s, none)
    else (s, none)

/-- Stand-in for the `np.inf * metric_op` objective synthesized for a
config-constraint violation (blendsearch.py lines 528–531).  Downstream
modelled code only tests this cached record for truthiness, so any nonzero
finite stand-in is observationally equivalent in the embedding. -/
def infObjective (op : ℚ) : ℚ := op * 10 ^ 100

/-- The config-constraint loop of `_should_skip` (blendsearch.py lines
522–533): does some constraint reject the configuration?  (The Python
`break` only affects which constraints are evaluated; the functions are pure
here, so existence is equivalent.) -/
def configConstraintsViolated (cs : List ((Config → ℚ) × String × ℚ))
    (config : Config) : Bool :=
  cs.any (fun c =>
    let value := c.1 config
    (c.2.1 = "<=" ∧ c.2.2 < value) ∨ (c.2.1 = ">=" ∧ value < c.2.2))

/-- The `exists`/config-constraint stage of `_should_skip` (blendsearch.py
lines 519–533): look the signature up in the dedup cache and, for an unseen
configuration violating a config constraint, cache the synthesized
worst-case record; returns the updated state and the final `exists`. -/
def synthStage (ls : LS) (sig config : Config) (s : BState) : BState × Bool :=
  let exists0 : Bool := decide (sig ∈ akeys s.result)
  if !exists0 && !s.config_constraints.isEmpty then
    if configConstraintsViolated s.config_constraints config then
      let synth := aset sig [(s.metric, infObjective ls.metric_op), (cost_attr, 1)] s.result
      ({ s with result := synth }, true)
    else (s, false)
  else (s, exists0)

/-- `BlendSearch._should_skip` (blendsearch.py lines 513–548).  `choice` is
an integer because the random-search fallback passes `-1`.  Returns the skip
flag, the updated state, and the error component (KeyError of the pool
lookup or whatever the replayed `_clean` raises). -/
def _should_skip (ls : LS) (notify : Thread → Thread) (choice : ℤ)
    (trial_id : String) (config? : Option Config) (s : BState) :
    Bool × BState × Option String :=
  match config? with
  | none => (true, s, none)
  | some config =>
    let sig := ls.config_signature config
    let stage := synthStage ls sig config s
    let s := stage.1
    if stage.2 then
      if 0 ≤ choice then
        match aget sig s.result with
        | some r =>
          if r ≠ [] then
            match aget choice.toNat s.search_thread_pool with
            | none => (true, s, some "KeyError")
            | some th =>
              let pool2 := aset choice.toNat (notify th) s.search_thread_pool
              let s := { s with search_thread_pool := pool2 }
              if choice.toNat ≠ 0 then
                let out := _clean ls choice.toNat s
                (true, out.1, out.2)
              else (true, s, none)
          else (true, s, none)
        | none => (true, s, none)
      else (true, s, none)
    else (false, s, none)

/-- Per-call oracle for `suggest`: the pair returned by the priority-driven
`_select_thread` (base variant), the configuration and statistics produced by
`SearchThread.suggest` per thread id, the random sample drawn by
`generate_variants`, and the thread effect of the replayed completion inside
`_should_skip`. -/
structure SuggOracle : Type where
  select : ℕ × ℕ
  thread_suggest : ℕ → Option Config
  after_suggest : Thread → Thread
  rand_config : Config
  notify : Thread → Thread

/-- Lines 480–492 of blendsearch.py: clamp the resource dimension for a
global proposal, update the matching admissible region, re-synchronize the
global box for a local proposal, and cache the empty placeholder. -/
def suggestTail (ls : LS) (choice : ℕ) (config : Config) (s : BState) :
    BState × Option Config × Option String :=
  if choice = 0 then
    let config := if ls.has_resource then aset ls.prune_attr ls.min_resource config
      else config
    let bounds := _update_admissible_region ls config s.gs_admissible_min s.gs_admissible_max
    let s := { s with gs_admissible_min := bounds.1, gs_admissible_max := bounds.2 }
    let s := { s with result := aset (ls.config_signature config) [] s.result }
    (s, some config, none)
  else
    let bounds := _update_admissible_region ls config s.ls_bound_min s.ls_bound_max
    let s := gsSync { s with ls_bound_min := bounds.1, ls_bound_max := bounds.2 }
    let s := { s with result := aset (ls.config_signature config) [] s.result }
    (s, some config, none)

/-- Lines 463–479 of blendsearch.py: accept the configuration (local thread,
or global passing `_valid`), else substitute the local engine's init point
when the backup equals the choice, else delegate to the backup thread. -/
def suggestOwnership (ls : LS) (o : SuggOracle) (trial_id : String)
    (choice backup : ℕ) (config : Config) (s : BState) :
    BState × Option Config × Option String :=
  if choice ≠ 0 ∨ _valid ls s.gs_admissible_min s.gs_admissible_max config then
    let s := { s with trial_proposed_by := aset trial_id choice s.trial_proposed_by }
    suggestTail ls choice config s
  else
    if choice = backup then
      let config := ls.complete_config ls.init_config s.ls_bound_min s.ls_bound_max
      let s := { s with trial_proposed_by := aset trial_id choice s.trial_proposed_by }
      suggestTail ls choice config s
    else
      match aget backup s.search_thread_pool with
      | none => (s, none, some "KeyError")
      | some bth =>
        let pool2 := aset backup (o.after_suggest bth) s.search_thread_pool
        let s := { s with search_thread_pool := pool2 }
        let config? := o.thread_suggest backup
        let skp := _should_skip ls o.notify (backup : ℤ) trial_id config? s
        match skp.2.2 with
        | some e => (skp.2.1, none, some e)
        | none =>
          if skp.1 then (skp.2.1, none, none)
          else
            let tpb2 := aset trial_id backup skp.2.1.trial_proposed_by
            let s2 := { skp.2.1 with trial_proposed_by := tpb2 }
            suggestTail ls backup (config?.getD []) s2

/-- The steady-state branch of `BlendSearch.suggest` (blendsearch.py lines
441–492), after `_select_thread` returned `(choice, backup)`. -/
def suggestSteady (ls : LS) (o : SuggOracle) (trial_id : String)
    (choice backup : ℕ) (s : BState) : BState × Option Config × Option String :=
  match aget choice s.search_thread_pool with
  | none => (s, none, some "KeyError")
  | some th =>
    let thNow := o.after_suggest th
    let s := { s with search_thread_pool := aset choice thNow s.search_thread_pool }
    let config? := o.thread_suggest choice
    if choice ≠ 0 ∧ config? = none then
      if thNow.converged then
        let bounds := _expand_admissible_region ls s.ls_bound_min s.ls_bound_max
        let s := { s with ls_bound_min := bounds.1, ls_bound_max := bounds.2 }
        ({ s with search_thread_pool := aerase choice s.search_thread_pool }, none, none)
      else (s, none, none)
    else
      let skp := _should_skip ls o.notify (choice : ℤ) trial_id config? s
      match skp.2.2 with
      | some e => (skp.2.1, none, some e)
      | none =>
        let s := skp.2.1
        if skp.1 then
          if choice ≠ 0 then (s, none, none)
          else
            let config := o.rand_config
            let skp2 := _should_skip ls o.notify (-1) trial_id (some config) s
            match skp2.2.2 with
            | some e => (skp2.2.1, none, some e)
            | none =>
              if skp2.1 then (skp2.2.1, none, none)
              else suggestOwnership ls o trial_id choice backup config skp2.2.1
        else suggestOwnership ls o trial_id choice backup (config?.getD []) s

/-- The bootstrap branch of `BlendSearch.suggest` (blendsearch.py lines
493–511): dequeue the next initial point (or fall back to the low-cost init
point), complete it, and consult the result cache. -/
def suggestBootstrap (ls : LS) (trial_id : String) (s : BState) :
    BState × Option Config × Option String :=
  let cands2 := some (aset trial_id none (s.candidate_start_points.getD []))
  let s := if s.candidate_start_points ≠ none ∧ s.points_to_evaluate ≠ [] then
      { s with candidate_start_points := cands2 }
    else s
  let pick : Config × BState :=
    match s.points_to_evaluate with
    | [] => (ls.init_config, s)
    | p :: rest => (p, { s with points_to_evaluate := rest })
  let s := pick.2
  let config := ls.complete_config pick.1 s.ls_bound_min s.ls_bound_max
  let sig := ls.config_signature config
  match aget sig s.result with
  | some _ =>
    -- tried before (truthy cached result), or currently running (placeholder):
    -- both return absent
    (s, none, none)
  | none =>
    let tpb2 := aset trial_id 0 s.trial_proposed_by
    let s := { s with result := aset sig [] s.result, init_used := true,
                      trial_proposed_by := tpb2 }
    match aget 0 s.search_thread_pool with
    | none => (s, none, some "KeyError")
    | some th =>
      let pool2 := aset 0 { th with running := th.running + 1 } s.search_thread_pool
      ({ s with search_thread_pool := pool2 }, some config, none)

/-- `BlendSearch.suggest` (blendsearch.py lines 437–511).  The base
`_select_thread` is priority/time-driven over collaborator statistics, so its
outcome enters through the oracle; its disabled timeout branch
(`if choice < 0`) is dead in the source and not modelled. -/
def suggest (ls : LS) (o : SuggOracle) (trial_id : String) (s : BState) :
    BState × Option Config × Option String :=
  if s.init_used ∧ s.points_to_evaluate = [] then
    suggestSteady ls o trial_id o.select.1 o.select.2 s
  else suggestBootstrap ls trial_id s

/-- `CFO._select_thread` (blendsearch.py lines 700–703): the first nonzero
thread id, as both top and backup; `none` when the pool has no local thread
(the caller's tuple unpacking would then raise `TypeError`). -/
def _select_thread_cfo (s : BState) : Option (ℕ × ℕ) :=
  (s.search_thread_pool.find? (fun p => decide (p.1 ≠ 0))).map (fun p => (p.1, p.1))

/-- `CFO.suggest` (blendsearch.py lines 691–698): assert the pool invariant,
re-arm bootstrap mode when only the vacuous global slot remains, then run the
base method with CFO's deterministic thread selection. -/
def suggestCFO (ls : LS) (o : SuggOracle) (trial_id : String) (s : BState) :
    BState × Option Config × Option String :=
  if 3 ≤ s.search_thread_pool.length then (s, none, some "AssertionError")
  else
    let s := if s.search_thread_pool.length < 2 then { s with init_used := false } else s
    if s.init_used ∧ s.points_to_evaluate = [] then
      match _select_thread_cfo s with
      | none => (s, none, some "TypeError")
      | some cb => suggestSteady ls o trial_id cb.1 cb.2 s
    else suggestBootstrap ls trial_id s

/-- One externally driven call to the CFO coordinator. -/
inductive CFOEvent : Type where
  | sugg (trial_id : String) (o : SuggOracle)
  | complete (trial_id : String) (result? : Option TResult) (error : Bool)
      (o : CompleteOracle)

/-- The state after one CFO call (exceptions leave the state reached at the
raise point, as in Python). -/
def cfoStep (ls : LS) (s : BState) : CFOEvent → BState
  | .sugg t o => (suggestCFO ls o t s).1
  | .complete t r e o => (on_trial_complete_cfo ls o t r e s).1

/-- Run a sequence of CFO calls. -/
def cfoRun (ls : LS) (s : BState) : List CFOEvent → BState
  | [] => s
  | e :: es => cfoRun ls (cfoStep ls s e) es

/-- The state built by `__init__`/`_init_search` (blendsearch.py lines
110–145 and 185–208).  `t0` is the vacuous/global slot-0 `SearchThread`,
`lowCostGiven` records whether a `low_cost_partial_config` was supplied, and
`isCFO` selects the CFO-specific candidate-start-point bookkeeping. -/
def initState (ls : LS) (t0 : Thread) (metric : String) (points : List Config)
    (mconstraints : List (String × String × ℚ))
    (cconstraints : List ((Config → ℚ) × String × ℚ))
    (lowCostGiven : Bool) (isCFO : Bool) : BState :=
  let bmin := ls.normalize ls.init_config
  { metric := metric
    search_thread_pool := [(0, t0)]
    thread_count := 1
    init_used := false
    trial_proposed_by := []
    ls_bound_min := bmin
    ls_bound_max := bmin
    gs_admissible_min := bmin
    gs_admissible_max := bmin
    result := []
    metric_target := ExtQ.infTimes ls.metric_op
    metric_constraints := mconstraints
    metric_constraint_satisfied := decide (mconstraints = [])
    metric_constraint_penalty := mconstraints.map (fun _ => blendPenalty)
    points_to_evaluate := points
    candidate_start_points := if isCFO ∧ 1 < points.length then some [] else none
    started_from_given := false
    started_from_low_cost := (isCFO ∧ 1 < points.length) ∧ ¬lowCostGiven
    config_constraints := cconstraints }

/-- The slot-0 thread statistics used in concrete instances. -/
def testThread : Thread := ⟨0, 0, none, false, 0⟩

/-- A concrete freshly initialised coordinator state for concrete instances. -/
def testState : BState := initState testLS testThread "metric" [] [] [] true false

/-- A coordinator state with the single metric constraint `accuracy >= 0.9`
at the initial penalty `1e10`, not yet satisfied. -/
def testStateC1 : BState :=
  { testState with
    metric_constraints := [("accuracy", ">=", 9/10)],
    metric_constraint_penalty := [blendPenalty],
    metric_constraint_satisfied := false }
/-- The local bounding box of `s2` extends that of `s`: every minimum moved
down (or stayed), every maximum moved up (or stayed), pointwise in `qget`. -/
def lsGrows (s s2 : BState) : Prop :=
  ∀ k, qget k s2.ls_bound_min ≤ qget k s.ls_bound_min ∧
    qget k s.ls_bound_max ≤ qget k s2.ls_bound_max

def boxKeys (s : BState) (K : List String) : Prop :=
  akeys s.ls_bound_min = K ∧ akeys s.ls_bound_max = K ∧
  akeys s.gs_admissible_min = K ∧ akeys s.gs_admissible_max = K

def poolNonConv (s : BState) : Prop :=
  ∀ p ∈ s.search_thread_pool, p.2.converged = false

/-- A converged non-root thread, for concrete instances. -/
def convThread : Thread := ⟨0, 0, none, true, 0⟩

/-- A coordinator state owning trial `"t"` through the converged local
thread `1`, with all four admissible boxes equal to the one-dimensional box
`{x ↦ 0}`. -/
def c5state : BState :=
  { testState with
    search_thread_pool := [(0, testThread), (1, convThread)],
    thread_count := 2,
    trial_proposed_by := [("t", 1)],
    ls_bound_min := [("x", 0)],
    ls_bound_max := [("x", 0)],
    gs_admissible_min := [("x", 0)],
    gs_admissible_max := [("x", 0)] }

/-- The test state with one cached result: configuration `{x ↦ 1}` (signature
identity) recorded from an earlier completion. -/
def c7state : BState :=
  { testState with result := [([("x", 1)], [("metric", 1)])] }

/-- Bootstrap test state: one pending initial point (the empty
configuration), nothing cached. -/
def c8state : BState := { testState with points_to_evaluate := [[]] }

/-- Bootstrap test state whose single initial point is already cached with a
resolved result. -/
def c8stateCached : BState :=
  { c8state with result := [([], [("metric", 1)])] }

theorem validLoop_iff (step : ℚ) (nc config gmin gmax : List (String × ℚ))
    (ks : List String) :
    validLoop step nc config gmin gmax ks = true ↔
    ∀ k ∈ ks, k ∈ akeys config →
      qget k gmin - step ≤ qget k nc ∧ qget k nc ≤ qget k gmax + step := by
  induction ks with
  | nil => simp [validLoop]
  | cons k ks ih =>
    simp only [validLoop]
    by_cases hk : k ∈ akeys config
    · rw [if_pos hk]
      by_cases hbad : qget k nc + step < qget k gmin ∨ qget k gmax + step < qget k nc
      · rw [if_pos hbad]
        simp only [Bool.false_eq_true, false_iff]
        intro h
        rcases hbad with hb | hb
        · have := (h k (List.mem_cons_self k ks) hk).1; linarith
        · have := (h k (List.mem_cons_self k ks) hk).2; linarith
      · rw [if_neg hbad, ih]
        push_neg at hbad
        constructor
        · intro h k' hk' hc'
          rcases List.mem_cons.mp hk' with rfl | hmem
          · exact ⟨by linarith [hbad.1], by linarith [hbad.2]⟩
          · exact h k' hmem hc'
        · intro h k' hk' hc'
          exact h k' (List.mem_cons_of_mem _ hk') hc'
    · rw [if_neg hk, ih]
      constructor
      · intro h k' hk' hc'
        rcases List.mem_cons.mp hk' with rfl | hmem
        · exact absurd hc' hk
        · exact h k' hmem hc'
      · intro h k' hk' hc'
        exact h k' (List.mem_cons_of_mem _ hk') hc'

/-- C3: `_valid` accepts a configuration iff, for every dimension tracked by
the global admissible region that is also present in the configuration, its
normalized value lies within `[global_min − slack, global_max + slack]` where
the slack is the local engine's STEPSIZE; concretely, with global box
`min_x = 0.0`, `max_x = 0.3` and slack `0.01`, normalized `x = 0.32` is
invalid, `x = 0.305` is valid, and `x = −0.02` is invalid. -/
theorem claim_C3_valid_region :
    (∀ (ls : LS) (gmin gmax : Box) (config : Config),
      _valid ls gmin gmax config = true ↔
      ∀ k ∈ akeys gmin, k ∈ akeys config →
        qget k gmin - ls.STEPSIZE ≤ qget k (ls.normalize config) ∧
        qget k (ls.normalize config) ≤ qget k gmax + ls.STEPSIZE)
    ∧ _valid testLS [("x", 0)] [("x", 3/10)] [("x", 32/100)] = false
    ∧ _valid testLS [("x", 0)] [("x", 3/10)] [("x", 305/1000)] = true
    ∧ _valid testLS [("x", 0)] [("x", 3/10)] [("x", -2/100)] = false := by
  refine ⟨fun ls gmin gmax config => validLoop_iff _ _ _ _ _ _, ?_, ?_, ?_⟩ <;>
    norm_num [_valid, validLoop, testLS, akeys, qget, aget]

/-- C2: `_inferior(A, B)` is true iff NOT(A.obj_best1 < B.obj_best2) AND
NOT(A has a truthy resource strictly smaller than B's) AND B.reach(A); in
particular with `A.obj_best1 = 2.0` and `B.obj_best2 = 3.0` it is false
regardless of the reach predicate and of the resource levels. -/
theorem claim_C2_inferior :
    (∀ (reach : Thread → Thread → Bool) (t1 t2 : Thread),
      _inferior reach t1 t2 =
        (!decide (t1.obj_best1 < t2.obj_best2)
          && !(resourceTruthy t1.resource && optLt t1.resource t2.resource)
          && reach t2 t1))
    ∧ (∀ (reach : Thread → Thread → Bool) (t1 t2 : Thread),
        t1.obj_best1 = 2 → t2.obj_best2 = 3 → _inferior reach t1 t2 = false) := by
  constructor
  · intro reach t1 t2
    unfold _inferior
    by_cases h1 : t1.obj_best1 < t2.obj_best2
    · simp [h1]
    · by_cases h2 : resourceTruthy t1.resource && optLt t1.resource t2.resource
      · simp [h1, h2]
      · by_cases h3 : reach t2 t1 <;> simp [h1, h2, h3]
  · intro reach t1 t2 h1 h2
    unfold _inferior
    rw [h1, h2]
    norm_num

/-- Closed witness for the hypothesis-bearing part of the C2 theorem. -/
theorem claim_C2_witness :
    _inferior (fun _ _ => true) ⟨2, 0, none, false, 0⟩ ⟨0, 3, none, false, 0⟩ = false :=
  claim_C2_inferior.2 (fun _ _ => true) ⟨2, 0, none, false, 0⟩ ⟨0, 3, none, false, 0⟩
    rfl rfl

theorem aget_eq_none {α β : Type} [DecidableEq α] (k : α) (l : List (α × β)) :
    aget k l = none ↔ k ∉ akeys l := by
  induction l with
  | nil => simp [aget, akeys]
  | cons p ps ih =>
    by_cases h : p.1 = k
    · simp [aget, akeys, h]
    · simp [aget, akeys, h, ih, Ne.symm h]

theorem aget_isSome {α β : Type} [DecidableEq α] (k : α) (l : List (α × β)) :
    (aget k l).isSome = true ↔ k ∈ akeys l := by
  rw [Option.isSome_iff_ne_none]
  constructor
  · intro h
    by_contra hk
    exact h ((aget_eq_none k l).mpr hk)
  · intro h hn
    exact (aget_eq_none k l).mp hn h

theorem aget_aset_self {α β : Type} [DecidableEq α] (k : α) (v : β) (l : List (α × β)) :
    aget k (aset k v l) = some v := by
  induction l with
  | nil => simp [aset, aget]
  | cons p ps ih =>
    by_cases h : p.1 = k
    · simp [aset, aget, h]
    · simp [aset, aget, h, ih]

theorem aget_aset_ne {α β : Type} [DecidableEq α] (k k' : α) (v : β) (l : List (α × β))
    (h : k' ≠ k) : aget k' (aset k v l) = aget k' l := by
  induction l with
  | nil => simp [aset, aget, Ne.symm h]
  | cons p ps ih =>
    by_cases hp : p.1 = k
    · subst hp
      simp [aset, aget, Ne.symm h]
    · simp only [aset, if_neg hp]
      by_cases hp' : p.1 = k' <;> simp [aget, hp', ih]

theorem qget_aset_self (k : String) (v : ℚ) (l : List (String × ℚ)) :
    qget k (aset k v l) = v := by
  simp [qget, aget_aset_self]

theorem qget_aset_ne (k k' : String) (v : ℚ) (l : List (String × ℚ)) (h : k' ≠ k) :
    qget k' (aset k v l) = qget k' l := by
  simp [qget, aget_aset_ne _ _ _ _ h]

theorem akeys_aset {α β : Type} [DecidableEq α] (k : α) (v : β) (l : List (α × β)) :
    akeys (aset k v l) = if k ∈ akeys l then akeys l else akeys l ++ [k] := by
  induction l with
  | nil => simp [aset, akeys]
  | cons p ps ih =>
    by_cases h : p.1 = k
    · simp [aset, akeys, h]
    · simp only [aset, akeys, if_neg h, List.map_cons]
      rw [show akeys (aset k v ps) = List.map Prod.fst (aset k v ps) from rfl] at ih
      by_cases hm : k ∈ akeys ps
      · simp [akeys] at hm
        simp [ih, akeys, hm, Ne.symm h]
      · simp [akeys] at hm
        simp [ih, akeys, hm, Ne.symm h]

theorem length_aset {α β : Type} [DecidableEq α] (k : α) (v : β) (l : List (α × β)) :
    (aset k v l).length = if k ∈ akeys l then l.length else l.length + 1 := by
  have := akeys_aset k v l
  have h1 : (aset k v l).length = (akeys (aset k v l)).length := by simp [akeys]
  have h2 : l.length = (akeys l).length := by simp [akeys]
  rw [h1, this, h2]
  by_cases hm : k ∈ akeys l <;> simp [hm]

theorem length_aset_le {α β : Type} [DecidableEq α] (k : α) (v : β) (l : List (α × β)) :
    (aset k v l).length ≤ l.length + 1 := by
  rw [length_aset]
  by_cases hm : k ∈ akeys l <;> simp [hm]

theorem nodup_aset {α β : Type} [DecidableEq α] (k : α) (v : β) (l : List (α × β))
    (h : (akeys l).Nodup) : (akeys (aset k v l)).Nodup := by
  rw [akeys_aset]
  by_cases hm : k ∈ akeys l
  · simpa [hm]
  · simp only [hm, if_neg, if_false]
    rw [List.nodup_append]
    exact ⟨h, List.nodup_singleton k, by simpa using hm⟩

theorem nodup_filter_keys {α β : Type} (p : α × β → Bool) (l : List (α × β))
    (h : (akeys l).Nodup) : (akeys (l.filter p)).Nodup :=
  h.sublist (List.Sublist.map Prod.fst (List.filter_sublist l))

theorem mcLoop_step_skip (op big : ℚ) (r : TResult) (name sign : String)
    (threshold : ℚ) (cs : List (String × String × ℚ)) (ps : List ℚ) (obj : ℚ)
    (hv : qget name r = 0) :
    mcLoop op big r ((name, sign, threshold) :: cs) ps obj =
      ((mcLoop op big r cs ps.tail obj).1,
       ps.headD 0 :: (mcLoop op big r cs ps.tail obj).2.1,
       (mcLoop op big r cs ps.tail obj).2.2) := by
  simp [mcLoop, hv]

theorem mcLoop_step_ok (op big : ℚ) (r : TResult) (name sign : String)
    (threshold : ℚ) (cs : List (String × String × ℚ)) (ps : List ℚ) (obj : ℚ)
    (hv : qget name r ≠ 0)
    (hvio : ¬ 0 < (qget name r - threshold) * (if sign = "<=" then (1 : ℚ) else -1)) :
    mcLoop op big r ((name, sign, threshold) :: cs) ps obj =
      ((mcLoop op big r cs ps.tail obj).1,
       ps.headD 0 :: (mcLoop op big r cs ps.tail obj).2.1,
       (mcLoop op big r cs ps.tail obj).2.2) := by
  by_cases hs : sign = "<=" <;> simp_all [mcLoop]

theorem mcLoop_step_violated (op big : ℚ) (r : TResult) (name sign : String)
    (threshold : ℚ) (cs : List (String × String × ℚ)) (ps : List ℚ) (obj : ℚ)
    (hv : qget name r ≠ 0)
    (hvio : 0 < (qget name r - threshold) * (if sign = "<=" then (1 : ℚ) else -1)) :
    mcLoop op big r ((name, sign, threshold) :: cs) ps obj =
      (let p := ps.headD 0
       let violation := (qget name r - threshold) * (if sign = "<=" then (1 : ℚ) else -1)
       let rec1 := mcLoop op big r cs ps.tail (obj + p * violation * op)
       (rec1.1, (if p < big then p + violation else p) :: rec1.2.1, false)) := by
  by_cases hs : sign = "<=" <;> simp_all [mcLoop]
theorem mcLoop_objective (op : ℚ) (r : TResult) :
    ∀ (cs : List (String × String × ℚ)) (ps : List ℚ) (obj : ℚ),
      ps.length = cs.length →
      (mcLoop op blendPenalty r cs ps obj).1 =
        obj + (List.zipWith (fun c p =>
          let v := qget c.1 r
          let vio := (v - c.2.2) * (if c.2.1 = "<=" then (1 : ℚ) else -1)
          if v ≠ 0 ∧ 0 < vio then p * vio * op else 0) cs ps).sum := by
  intro cs
  induction cs with
  | nil => intro ps obj h; simp [mcLoop]
  | cons c cs ih =>
    rintro ⟨⟩ obj h
    · simp at h
    case cons p ps =>
    obtain ⟨name, sign, threshold⟩ := c
    simp only [List.length_cons, Nat.succ.injEq] at h
    by_cases hv : qget name r = 0
    · rw [mcLoop_step_skip op blendPenalty r name sign threshold cs (p :: ps) obj hv]
      rw [List.zipWith_cons_cons, List.sum_cons]
      simp only [List.tail_cons]
      rw [ih ps obj h]
      simp [hv]
    · by_cases hvio : 0 < (qget name r - threshold) * (if sign = "<=" then (1 : ℚ) else -1)
      · rw [mcLoop_step_violated op blendPenalty r name sign threshold cs (p :: ps) obj hv hvio]
        rw [List.zipWith_cons_cons, List.sum_cons]
        simp only [List.tail_cons, List.headD_cons]
        rw [ih ps _ h]
        simp only [ne_eq, hv, not_false_iff, true_and, if_pos hvio]
        ring
      · rw [mcLoop_step_ok op blendPenalty r name sign threshold cs (p :: ps) obj hv hvio]
        rw [List.zipWith_cons_cons, List.sum_cons]
        simp only [List.tail_cons, List.headD_cons]
        rw [ih ps obj h]
        have : ¬ (qget name r ≠ 0 ∧ 0 < (qget name r - threshold) * (if sign = "<=" then (1 : ℚ) else -1)) := by
          intro hc; exact hvio hc.2
        rw [if_neg this]
        ring
theorem mcLoop_sat (op big : ℚ) (r : TResult) :
    ∀ (cs : List (String × String × ℚ)) (ps : List ℚ) (obj : ℚ),
      (mcLoop op big r cs ps obj).2.2 = true ↔
      ∀ c ∈ cs, qget c.1 r = 0 ∨
        (qget c.1 r - c.2.2) * (if c.2.1 = "<=" then (1 : ℚ) else -1) ≤ 0 := by
  intro cs
  induction cs with
  | nil => intro ps obj; simp [mcLoop]
  | cons c cs ih =>
    intro ps obj
    obtain ⟨name, sign, threshold⟩ := c
    by_cases hv : qget name r = 0
    · rw [mcLoop_step_skip op big r name sign threshold cs ps obj hv]
      simp only [List.mem_cons]
      constructor
      · intro h c' hc'
        rcases hc' with rfl | hmem
        · exact Or.inl hv
        · exact (ih ps.tail obj).mp h c' hmem
      · intro h
        exact (ih ps.tail obj).mpr (fun c' hc' => h c' (Or.inr hc'))
    · by_cases hvio : 0 < (qget name r - threshold) * (if sign = "<=" then (1 : ℚ) else -1)
      · rw [mcLoop_step_violated op big r name sign threshold cs ps obj hv hvio]
        simp only [Bool.false_eq_true, false_iff, not_forall]
        refine ⟨(name, sign, threshold), List.mem_cons_self _ _, ?_⟩
        push_neg
        exact ⟨hv, hvio⟩
      · rw [mcLoop_step_ok op big r name sign threshold cs ps obj hv hvio]
        simp only [List.mem_cons]
        constructor
        · intro h c' hc'
          rcases hc' with rfl | hmem
          · exact Or.inr (by push_neg at hvio; exact hvio)
          · exact (ih ps.tail obj).mp h c' hmem
        · intro h
          exact (ih ps.tail obj).mpr (fun c' hc' => h c' (Or.inr hc'))
theorem mcsat_create_thread (ls : LS) (c : Config) (r : TResult) (s : BState) :
    (_create_thread ls c r s).metric_constraint_satisfied =
    s.metric_constraint_satisfied := rfl

theorem mcsat_ctfbc (ls : LS) (s : BState) :
    (_create_thread_from_best_candidate ls s).1.metric_constraint_satisfied =
    s.metric_constraint_satisfied := by
  unfold _create_thread_from_best_candidate
  dsimp only
  split
  · rfl
  · split
    · rfl
    · split
      · rfl
      · exact mcsat_create_thread _ _ _ _

theorem mcsat_cleanCandBlock (ls : LS) (obj : ℚ) (s : BState) :
    (cleanCandBlock ls obj s).1.metric_constraint_satisfied =
    s.metric_constraint_satisfied := by
  unfold cleanCandBlock
  split
  · split
    · split <;> rfl
    · rfl
  · rfl

theorem mcsat_clean (ls : LS) (t : ℕ) (s : BState) :
    (_clean ls t s).1.metric_constraint_satisfied = s.metric_constraint_satisfied := by
  unfold _clean
  dsimp only
  split
  · rfl
  · split
    · rfl
    · split
      · split
        next sc cnew e heq =>
          have h2 := congrArg (fun x => x.1.metric_constraint_satisfied) heq
          simp only [mcsat_cleanCandBlock] at h2
          exact h2.symm
        next sc cnew heq =>
          have h2 := congrArg (fun x => x.1.metric_constraint_satisfied) heq
          simp only [mcsat_cleanCandBlock] at h2
          split
          · rw [mcsat_ctfbc]; exact h2.symm
          · exact h2.symm
      · rfl

theorem mcsat_cleanup (ls : LS) (tid? : Option ℕ) (s : BState) :
    (cleanupStage ls tid? s).1.metric_constraint_satisfied =
    s.metric_constraint_satisfied := by
  unfold cleanupStage
  split
  · split
    · rw [mcsat_clean]
    · rfl
  · rfl
theorem mcb_flag (op : ℚ) (s : BState) (r : TResult)
    (out : TResult × List ℚ × Bool × Bool)
    (h : metricConstraintsBlock op s r = some out) :
    out.2.2.1 = (s.metric_constraint_satisfied || out.2.2.2) := by
  unfold metricConstraintsBlock at h
  split at h
  · exact absurd h (by simp)
  · injection h with h2
    subst h2
    rfl

theorem mcsat_notifyStage (o : CompleteOracle) (tr : String) (s : BState) :
    (notifyStage o tr s).2.metric_constraint_satisfied =
    s.metric_constraint_satisfied := by
  unfold notifyStage
  split
  · split <;> rfl
  · rfl

theorem mcsat_completeError (ls : LS) (r : TResult) (tid? : Option ℕ)
    (s : BState) :
    (completeError ls r tid? s).1.metric_constraint_satisfied =
    s.metric_constraint_satisfied := by
  unfold completeError
  dsimp only
  split
  · rw [mcsat_cleanup]
  · rfl

theorem mcsat_completeNonError (ls : LS) (cc : BState → TResult → Option Bool)
    (tr : String) (r : TResult) (tid? : Option ℕ) (mcs : Bool) (s : BState) :
    (completeNonError ls cc tr r tid? mcs s).1.metric_constraint_satisfied =
    s.metric_constraint_satisfied := by
  unfold completeNonError
  dsimp only
  repeat' split
  all_goals simp only [mcsat_cleanup, mcsat_create_thread, gsSync]

theorem mcsat_sticky (ls : LS) (cc : BState → TResult → Option Bool)
    (o : CompleteOracle) (tr : String) (r? : Option TResult) (e : Bool)
    (s : BState) (h : s.metric_constraint_satisfied = true) :
    (on_trial_complete ls cc o tr r? e s).1.metric_constraint_satisfied = true := by
  unfold on_trial_complete
  dsimp only
  split
  · exact h
  next blkOut heq =>
    have hb : blkOut.2.1.metric_constraint_satisfied = true := by
      split at heq
      · split at heq
        · exact absurd heq (by simp)
        next out heq2 =>
          injection heq with h3
          rw [← h3]
          dsimp only
          rw [mcb_flag _ _ _ _ heq2, h]
          rfl
      · injection heq with h3
        rw [← h3]
        exact h
    obtain ⟨r2, s2, m2⟩ := blkOut
    dsimp only at hb ⊢
    repeat' split
    all_goals simp only [mcsat_completeError, mcsat_completeNonError,
      mcsat_cleanup, mcsat_notifyStage]
    all_goals exact hb

/-- C1: with metric constraints configured and a non-error result, each
violated constraint (signed violation `(value − threshold)` scaled by `+1`
for `<=` / `−1` for `>=` being positive) adds `penalty[i] * violation *
metric_op` to the objective recorded under the lagrange-derived metric name
and marks constraints unsatisfied; the first completion with zero violations
resets every penalty weight to 1 and sets the sticky satisfied flag, which
then stays true for all later completions.  Concretely, with `accuracy >=
0.9` at initial penalty `1e10`, `accuracy = 0.8` adds `1e10 * 0.1 *
metric_op` and `accuracy = 0.95` resets the penalties to 1 and makes the
flag permanently true. -/
theorem claim_C1_metric_constraint_penalty :
    (∀ (op : ℚ) (r : TResult) (cs : List (String × String × ℚ)) (ps : List ℚ)
        (obj : ℚ), ps.length = cs.length →
        (mcLoop op blendPenalty r cs ps obj).1 =
          obj + (List.zipWith (fun c p =>
            let v := qget c.1 r
            let vio := (v - c.2.2) * (if c.2.1 = "<=" then (1 : ℚ) else -1)
            if v ≠ 0 ∧ 0 < vio then p * vio * op else 0) cs ps).sum)
    ∧ (∀ (op : ℚ) (s : BState) (r : TResult) (out : TResult × List ℚ × Bool × Bool),
        metricConstraintsBlock op s r = some out →
        aget (s.metric ++ lagrangeSuffix) out.1 =
          some (mcLoop op blendPenalty r s.metric_constraints
            s.metric_constraint_penalty (qget s.metric r)).1
        ∧ (out.2.2.2 = true → s.metric_constraint_satisfied = false →
            out.2.1 = s.metric_constraints.map (fun _ => (1 : ℚ)))
        ∧ (out.2.2.2 = true → out.2.2.1 = true))
    ∧ (∀ (ls : LS) (cc : BState → TResult → Option Bool) (o : CompleteOracle)
        (tr : String) (r? : Option TResult) (e : Bool) (s : BState),
        s.metric_constraint_satisfied = true →
        (on_trial_complete ls cc o tr r? e s).1.metric_constraint_satisfied = true)
    ∧ (∀ op m : ℚ,
        mcLoop op blendPenalty [("metric", m), ("accuracy", 8/10)]
          [("accuracy", ">=", 9/10)] [blendPenalty] m =
          (m + blendPenalty * (1/10) * op, [blendPenalty], false))
    ∧ (∀ m : ℚ, ∃ out,
        metricConstraintsBlock 1 testStateC1 [("metric", m), ("accuracy", 95/100)] =
          some out ∧ out.2.1 = [1] ∧ out.2.2.1 = true ∧ out.2.2.2 = true) := by
  refine ⟨mcLoop_objective, ?_, mcsat_sticky, ?_, ?_⟩
  · intro op s r out h
    unfold metricConstraintsBlock at h
    split at h
    · exact absurd h (by simp)
    next obj0 heq =>
      injection h with h2
      subst h2
      refine ⟨?_, ?_, ?_⟩
      · dsimp only
        rw [aget_aset_self]
        simp [qget, heq]
      · intro hsat hflag
        dsimp only
        rw [if_pos ⟨hsat, by simp [hflag]⟩]
      · intro hsat
        dsimp only
        rw [hsat]
        simp
  · intro op m
    have h8 : qget "accuracy" [("metric", m), ("accuracy", (8:ℚ)/10)] = 8/10 := by
      simp [qget, aget]
    rw [mcLoop_step_violated op blendPenalty _ "accuracy" ">=" (9/10) [] [blendPenalty] m
      (by rw [h8]; norm_num) (by rw [h8]; simp; norm_num)]
    simp [mcLoop, h8, blendPenalty]
    norm_num
  · intro m
    refine ⟨_, rfl, ?_, ?_, ?_⟩ <;>
      simp [metricConstraintsBlock, testStateC1, testState, initState, testLS,
        mcLoop, qget, aget, blendPenalty] <;> norm_num

/-- Closed witness for the hypothesis-bearing parts of the C1 theorem. -/
theorem claim_C1_witness :
    (mcLoop 1 blendPenalty [] [] [] 0).1 = 0 + ([] : List ℚ).sum ∧
    (on_trial_complete testLS (_create_condition testLS) ⟨id⟩ "t" none false
      testState).1.metric_constraint_satisfied = true := by
  constructor
  · exact claim_C1_metric_constraint_penalty.1 1 [] [] [] 0 rfl
  · exact claim_C1_metric_constraint_penalty.2.2.1 testLS (_create_condition testLS)
      ⟨id⟩ "t" none false testState (by simp [testState, initState])
/-- C9: a metric constraint whose secondary metric is absent from the result
record, or whose value equals 0 (falsy), is silently skipped: it contributes
no penalty, does not mark constraints unsatisfied, and counts as satisfied
for the purpose of resetting penalties and setting the satisfied flag — even
when the value 0 actually violates the threshold (e.g. `accuracy >= 0.9`
with `accuracy = 0`). -/
theorem claim_C9_falsy_constraint_value_skipped :
    (∀ (op big : ℚ) (r : TResult) (name sign : String) (threshold : ℚ)
        (cs : List (String × String × ℚ)) (ps : List ℚ) (obj : ℚ),
        aget name r = none ∨ aget name r = some 0 →
        mcLoop op big r ((name, sign, threshold) :: cs) ps obj =
          ((mcLoop op big r cs ps.tail obj).1,
           ps.headD 0 :: (mcLoop op big r cs ps.tail obj).2.1,
           (mcLoop op big r cs ps.tail obj).2.2))
    ∧ (∀ m : ℚ, ∃ out,
        metricConstraintsBlock 1 testStateC1 [("metric", m), ("accuracy", 0)] =
          some out ∧
        aget ("metric" ++ lagrangeSuffix) out.1 = some m ∧
        out.2.2.2 = true ∧ out.2.1 = [1] ∧ out.2.2.1 = true) := by
  constructor
  · intro op big r name sign threshold cs ps obj hv
    apply mcLoop_step_skip
    rcases hv with hv | hv <;> simp [qget, hv]
  · intro m
    refine ⟨_, rfl, ?_, ?_, ?_, ?_⟩ <;>
      simp [metricConstraintsBlock, testStateC1, testState, initState, testLS,
        mcLoop, qget, aget, aget_aset_self, blendPenalty, lagrangeSuffix]

/-- Closed witness for the hypothesis-bearing part of the C9 theorem. -/
theorem claim_C9_witness :
    mcLoop 1 1 [("accuracy", 0)] [("accuracy", ">=", 9/10)] [1] 3 =
      ((mcLoop 1 1 [("accuracy", 0)] [] [] 3).1,
       1 :: (mcLoop 1 1 [("accuracy", 0)] [] [] 3).2.1,
       (mcLoop 1 1 [("accuracy", 0)] [] [] 3).2.2) :=
  claim_C9_falsy_constraint_value_skipped.1 1 1 [("accuracy", 0)] "accuracy" ">="
    (9/10) [] [1] 3 (Or.inr (by simp [aget]))
/-- C6: the default (BlendSearch) thread-creation condition returns true
whenever the pool holds fewer than 2 threads; otherwise it returns true iff
the completed result's objective times `metric_op` is strictly below the
median of `obj_best1` over all existing local (nonzero-id) threads. -/
theorem claim_C6_create_condition (ls : LS) (s : BState) (r : TResult) :
    (s.search_thread_pool.length < 2 → _create_condition ls s r = some true)
    ∧ (2 ≤ s.search_thread_pool.length →
        (_create_condition ls s r = some true ↔
          qget ls.metric r * ls.metric_op <
            npMedian ((s.search_thread_pool.filter (fun p => p.1 ≠ 0)).map
              (fun p => p.2.obj_best1)))) := by
  constructor
  · intro h
    unfold _create_condition
    rw [if_pos h]
  · intro h
    unfold _create_condition
    rw [if_neg (by omega)]
    simp

/-- Closed witness for the C6 theorem: a fresh pool with a single thread
always triggers creation, and a two-thread pool compares with the median. -/
theorem claim_C6_witness :
    _create_condition testLS testState [] = some true ∧
    (_create_condition testLS
        { testState with search_thread_pool := [(0, testThread), (1, ⟨5, 6, none, false, 0⟩)] }
        [("metric", 1)] = some true ↔
      qget "metric" [("metric", (1:ℚ))] * 1 < npMedian [(5:ℚ)]) := by
  constructor
  · exact (claim_C6_create_condition testLS testState []).1
      (by simp [testState, initState])
  · have h := (claim_C6_create_condition testLS
      { testState with search_thread_pool := [(0, testThread), (1, ⟨5, 6, none, false, 0⟩)] }
      [("metric", 1)]).2 (by simp)
    simpa [testLS] using h
theorem aget_mem {α β : Type} [DecidableEq α] (k : α) (v : β) (l : List (α × β))
    (h : aget k l = some v) : (k, v) ∈ l := by
  induction l with
  | nil => simp [aget] at h
  | cons p ps ih =>
    by_cases hp : p.1 = k
    · simp only [aget, if_pos hp] at h
      injection h with h2
      have : p = (k, v) := Prod.ext hp h2
      rw [← this]
      exact List.mem_cons_self p ps
    · simp only [aget, if_neg hp] at h
      exact List.mem_cons_of_mem _ (ih h)

theorem aget_mem_keys {α β : Type} [DecidableEq α] (k : α) (v : β)
    (l : List (α × β)) (h : aget k l = some v) : k ∈ akeys l := by
  rw [← aget_isSome, h]
  rfl

theorem length_filter_lt_of_mem {α : Type} (p : α → Bool) (l : List α) (x : α)
    (hx : x ∈ l) (hpx : p x = false) : (l.filter p).length < l.length := by
  induction l with
  | nil => simp at hx
  | cons a as ih =>
    rcases List.mem_cons.mp hx with rfl | hmem
    · simp only [List.filter_cons, hpx]
      calc (as.filter p).length ≤ as.length := List.length_filter_le p as
        _ < (x :: as).length := by simp
    · by_cases ha : p a
      · simp only [List.filter_cons, ha, if_pos, List.length_cons]
        exact Nat.succ_lt_succ (ih hmem)
      · simp only [List.filter_cons, Bool.not_eq_true] at ha
        simp only [List.filter_cons, ha]
        calc (as.filter p).length < as.length := ih hmem
          _ < (a :: as).length := by simp

theorem pool_create_thread_le (ls : LS) (c : Config) (r : TResult) (s : BState) :
    (_create_thread ls c r s).search_thread_pool.length ≤
    s.search_thread_pool.length + 1 := by
  unfold _create_thread
  exact length_aset_le _ _ _

theorem pool_cleanCandBlock (ls : LS) (obj : ℚ) (s : BState) :
    (cleanCandBlock ls obj s).1.search_thread_pool = s.search_thread_pool := by
  unfold cleanCandBlock
  split
  · split
    · split <;> rfl
    · rfl
  · rfl

theorem pool_ctfbc_le (ls : LS) (s : BState) :
    (_create_thread_from_best_candidate ls s).1.search_thread_pool.length ≤
    s.search_thread_pool.length + 1 := by
  unfold _create_thread_from_best_candidate
  dsimp only
  split
  · simp
  · split
    · simp
    · split
      · simp
      · exact pool_create_thread_le _ _ _ _
theorem pool_clean_le (ls : LS) (t : ℕ) (s : BState)
    (h : s.search_thread_pool.length ≤ 2) :
    (_clean ls t s).1.search_thread_pool.length ≤ 2 := by
  unfold _clean
  dsimp only
  split
  · exact h
  · split
    · exact h
    next tthread heq =>
      split
      · -- converged: the thread itself is always in the deletion set
        split
        next sc cnew e hcb =>
          have hp := congrArg (fun x => x.1.search_thread_pool) hcb
          simp only [pool_cleanCandBlock] at hp
          have : sc.search_thread_pool = s.search_thread_pool := hp.symm
          simpa [this] using h
        next sc cnew hcb =>
          have hp := congrArg (fun x => x.1.search_thread_pool) hcb
          simp only [pool_cleanCandBlock] at hp
          have hmem : (t, tthread) ∈ sc.search_thread_pool := by
            rw [← hp]
            exact aget_mem _ _ _ heq
          have hlen : sc.search_thread_pool.length ≤ 2 := by rw [← hp]; exact h
          split
          · -- create_new: the converged thread was deleted first
            refine le_trans (pool_ctfbc_le _ _) ?_
            have hflt : (sc.search_thread_pool.filter (fun p =>
                ¬ p.1 ∈ (s.search_thread_pool.filter (fun p =>
                    p.1 ≠ 0 ∧ p.1 ≠ t ∧ _inferior ls.reach p.2 tthread)).map Prod.fst
                  ++ (if s.search_thread_pool.any (fun p =>
                    p.1 ≠ 0 ∧ p.1 ≠ t ∧ _inferior ls.reach tthread p.2)
                    then [t] else []) ++ [t])).length <
                sc.search_thread_pool.length := by
              apply length_filter_lt_of_mem _ _ (t, tthread) hmem
              simp
            dsimp only
            omega
          · dsimp only
            calc (sc.search_thread_pool.filter _).length ≤
                sc.search_thread_pool.length := List.length_filter_le _ _
              _ ≤ 2 := hlen
      · dsimp only
        calc (s.search_thread_pool.filter _).length ≤
            s.search_thread_pool.length := List.length_filter_le _ _
          _ ≤ 2 := h

theorem pool_cleanup_le (ls : LS) (tid? : Option ℕ) (s : BState)
    (h : s.search_thread_pool.length ≤ 2) :
    (cleanupStage ls tid? s).1.search_thread_pool.length ≤ 2 := by
  unfold cleanupStage
  split
  · split
    · exact pool_clean_le _ _ _ h
    · exact h
  · exact h
theorem pool_synthStage (ls : LS) (sig config : Config) (s : BState) :
    (synthStage ls sig config s).1.search_thread_pool = s.search_thread_pool := by
  unfold synthStage
  dsimp only
  repeat' split
  all_goals rfl

theorem pool_should_skip_le (ls : LS) (notify : Thread → Thread) (choice : ℤ)
    (tr : String) (config? : Option Config) (s : BState)
    (h : s.search_thread_pool.length ≤ 2) :
    (_should_skip ls notify choice tr config? s).2.1.search_thread_pool.length ≤ 2 := by
  unfold _should_skip
  split
  · exact h
  next config =>
    have hpool := pool_synthStage ls (ls.config_signature config) config s
    dsimp only
    split
    · split
      · split
        next r heqr =>
          split
          · split
            · rw [hpool]; exact h
            next th heq =>
              have hk : choice.toNat ∈ akeys
                  (synthStage ls (ls.config_signature config) config s).1.search_thread_pool :=
                aget_mem_keys _ _ _ heq
              have hlen : (aset choice.toNat (notify th)
                  (synthStage ls (ls.config_signature config) config
                    s).1.search_thread_pool).length ≤ 2 := by
                rw [length_aset, if_pos hk, hpool]
                exact h
              split
              · exact pool_clean_le _ _ _ (by simpa using hlen)
              · simpa using hlen
          · rw [hpool]; exact h
        · rw [hpool]; exact h
      · rw [hpool]; exact h
    · rw [hpool]; exact h
theorem pool_gsSync (s : BState) :
    (gsSync s).search_thread_pool = s.search_thread_pool := rfl

theorem pool_suggestTail (ls : LS) (choice : ℕ) (config : Config) (s : BState) :
    (suggestTail ls choice config s).1.search_thread_pool = s.search_thread_pool := by
  unfold suggestTail
  split <;> rfl

theorem pool_suggestOwnership_le (ls : LS) (o : SuggOracle) (tr : String)
    (choice backup : ℕ) (config : Config) (s : BState)
    (h : s.search_thread_pool.length ≤ 2) :
    (suggestOwnership ls o tr choice backup config s).1.search_thread_pool.length ≤ 2 := by
  unfold suggestOwnership
  split
  · rw [pool_suggestTail]
    exact h
  · split
    · rw [pool_suggestTail]
      exact h
    · split
      · exact h
      next bth heq =>
        have hk := aget_mem_keys _ _ _ heq
        have hlen : (aset backup (o.after_suggest bth)
            s.search_thread_pool).length ≤ 2 := by
          rw [length_aset, if_pos hk]
          exact h
        have hss := pool_should_skip_le ls o.notify (backup : ℤ) tr
          (o.thread_suggest backup)
          { s with search_thread_pool := aset backup (o.after_suggest bth) s.search_thread_pool }
          (by simpa using hlen)
        dsimp only
        split
        · exact hss
        · split
          · exact hss
          · rw [pool_suggestTail]
            exact hss

theorem pool_suggestSteady_le (ls : LS) (o : SuggOracle) (tr : String)
    (choice backup : ℕ) (s : BState)
    (h : s.search_thread_pool.length ≤ 2) :
    (suggestSteady ls o tr choice backup s).1.search_thread_pool.length ≤ 2 := by
  unfold suggestSteady
  split
  · exact h
  next th heq =>
    have hk := aget_mem_keys _ _ _ heq
    have hlen : (aset choice (o.after_suggest th) s.search_thread_pool).length ≤ 2 := by
      rw [length_aset, if_pos hk]
      exact h
    dsimp only
    split
    · split
      · calc (List.filter _ _).length ≤ _ := List.length_filter_le _ _
          _ ≤ 2 := by simpa using hlen
      · simpa using hlen
    · have hss := pool_should_skip_le ls o.notify (choice : ℤ) tr
        (o.thread_suggest choice)
        { s with search_thread_pool := aset choice (o.after_suggest th) s.search_thread_pool }
        (by simpa using hlen)
      split
      · exact hss
      · split
        · split
          · exact hss
          · have hss2 := pool_should_skip_le ls o.notify (-1) tr
              (some o.rand_config) _ hss
            split
            · exact hss2
            · split
              · exact hss2
              · exact pool_suggestOwnership_le _ _ _ _ _ _ _ hss2
        · exact pool_suggestOwnership_le _ _ _ _ _ _ _ hss
theorem pool_suggestBootstrap_le (ls : LS) (tr : String) (s : BState)
    (h : s.search_thread_pool.length ≤ 2) :
    (suggestBootstrap ls tr s).1.search_thread_pool.length ≤ 2 := by
  unfold suggestBootstrap
  dsimp only
  split
  · repeat' split
    all_goals exact h
  next heqn =>
    revert heqn
    repeat' split
    all_goals intro heqn
    all_goals try exact h
    all_goals
      (rename_i hth
       rw [length_aset, if_pos (aget_mem_keys _ _ _ hth)]
       exact h)

theorem pool_suggestCFO_le (ls : LS) (o : SuggOracle) (tr : String) (s : BState)
    (h : s.search_thread_pool.length ≤ 2) :
    (suggestCFO ls o tr s).1.search_thread_pool.length ≤ 2 := by
  unfold suggestCFO
  split
  · exact h
  · dsimp only
    repeat' split
    all_goals try exact h
    all_goals try exact pool_suggestSteady_le _ _ _ _ _ _ h
    all_goals exact pool_suggestBootstrap_le _ _ _ h
theorem cfo_cond_true_len (ls : LS) (s : BState) (r : TResult)
    (h : _create_condition_cfo ls s r = some true) :
    s.search_thread_pool.length ≠ 2 := by
  unfold _create_condition_cfo at h
  split at h
  · exact absurd h (by simp)
  · split at h
    · exact absurd h (by simp)
    next hne => exact hne

theorem pool_notifyStage_len (o : CompleteOracle) (tr : String) (s : BState) :
    (notifyStage o tr s).2.search_thread_pool.length =
    s.search_thread_pool.length := by
  unfold notifyStage
  split
  · split
    next th heq =>
      have hk := aget_mem_keys _ _ _ heq
      dsimp only
      rw [length_aset, if_pos hk]
    · rfl
  · rfl

theorem pool_completeError_le (ls : LS) (r : TResult) (tid? : Option ℕ)
    (s : BState) (h : s.search_thread_pool.length ≤ 2) :
    (completeError ls r tid? s).1.search_thread_pool.length ≤ 2 := by
  unfold completeError
  dsimp only
  split
  · exact pool_cleanup_le _ _ _ h
  · exact h

theorem pool_completeNonError_le (ls : LS) (cc : BState → TResult → Option Bool)
    (hcc : ∀ s r, cc s r = some true → s.search_thread_pool.length ≠ 2)
    (tr : String) (r : TResult) (tid? : Option ℕ) (mcs : Bool) (s : BState)
    (h : s.search_thread_pool.length ≤ 2) :
    (completeNonError ls cc tr r tid? mcs s).1.search_thread_pool.length ≤ 2 := by
  unfold completeNonError
  dsimp only
  split
  · exact h
  next objective heqo =>
    split
    · -- thread_id == 0 and metric_constraint_satisfied: creation branch
      split
      · exact (by split <;> exact h)
      next cond heqc =>
        split
        next hcond =>
          -- cond = true: the CFO creation condition rules out a full pool
          subst hcond
          apply pool_cleanup_le
          rw [pool_gsSync]
          refine le_trans (pool_create_thread_le _ _ _ _) ?_
          have hne := hcc _ _ heqc
          revert hne
          repeat' split
          all_goals (intro hne; (try dsimp only at hne ⊢); omega)
        · apply pool_cleanup_le
          rw [pool_gsSync]
          split <;> exact h
    · apply pool_cleanup_le
      rw [pool_gsSync]
      repeat' split
      all_goals exact h

theorem pool_on_trial_complete_le (ls : LS) (cc : BState → TResult → Option Bool)
    (hcc : ∀ s r, cc s r = some true → s.search_thread_pool.length ≠ 2)
    (o : CompleteOracle) (tr : String) (r? : Option TResult) (e : Bool)
    (s : BState) (h : s.search_thread_pool.length ≤ 2) :
    (on_trial_complete ls cc o tr r? e s).1.search_thread_pool.length ≤ 2 := by
  unfold on_trial_complete
  dsimp only
  split
  · exact h
  next blkOut heq =>
    have hb : blkOut.2.1.search_thread_pool.length ≤ 2 := by
      split at heq
      · split at heq
        · exact absurd heq (by simp)
        · injection heq with h3
          rw [← h3]
          exact h
      · injection heq with h3
        rw [← h3]
        exact h
    have hn : (notifyStage o tr blkOut.2.1).2.search_thread_pool.length ≤ 2 := by
      rw [pool_notifyStage_len]
      exact hb
    split
    · split
      · exact pool_completeError_le _ _ _ _ hn
      · exact pool_completeNonError_le _ _ hcc _ _ _ _ _ hn
    · exact pool_cleanup_le _ _ _ hn

theorem pool_on_trial_complete_cfo_le (ls : LS) (o : CompleteOracle)
    (tr : String) (r? : Option TResult) (e : Bool) (s : BState)
    (h : s.search_thread_pool.length ≤ 2) :
    (on_trial_complete_cfo ls o tr r? e s).1.search_thread_pool.length ≤ 2 := by
  unfold on_trial_complete_cfo
  dsimp only
  have hbase := pool_on_trial_complete_le ls (_create_condition_cfo ls)
    (fun s r => cfo_cond_true_len ls s r) o tr r? e s h
  split
  · exact hbase
  · split
    · split
      next hlen =>
        refine le_trans (pool_ctfbc_le _ _) ?_
        exact Nat.succ_le_of_lt hlen.1
      · exact hbase
    · exact hbase
theorem pool_cfoStep_le (ls : LS) (s : BState) (e : CFOEvent)
    (h : s.search_thread_pool.length ≤ 2) :
    (cfoStep ls s e).search_thread_pool.length ≤ 2 := by
  cases e with
  | sugg t o => exact pool_suggestCFO_le ls o t s h
  | complete t r er o => exact pool_on_trial_complete_cfo_le ls o t r er s h

theorem pool_cfoRun_le (ls : LS) :
    ∀ (events : List CFOEvent) (s : BState),
      s.search_thread_pool.length ≤ 2 →
      (cfoRun ls s events).search_thread_pool.length ≤ 2 := by
  intro events
  induction events with
  | nil => intro s h; exact h
  | cons e es ih =>
    intro s h
    exact ih _ (pool_cfoStep_le ls s e h)

/-- C4: under the CFO variant the thread pool never holds more than 2
threads across any sequence of `suggest`/`on_trial_complete` calls starting
from a freshly initialised coordinator; a pool of 3 or more is a fatal
internal-consistency (assertion) error at suggest time, leaving the state
unchanged and proposing nothing; and the CFO creation condition returns
false whenever the pool already holds 2 threads and whenever user-supplied
initial points remain unevaluated. -/
theorem claim_C4_cfo_pool_invariant :
    (∀ (ls : LS) (t0 : Thread) (metric : String) (points : List Config)
        (mcs : List (String × String × ℚ))
        (ccs : List ((Config → ℚ) × String × ℚ)) (lowCostGiven : Bool)
        (events : List CFOEvent),
        (cfoRun ls (initState ls t0 metric points mcs ccs lowCostGiven true)
          events).search_thread_pool.length ≤ 2)
    ∧ (∀ (ls : LS) (o : SuggOracle) (tr : String) (s : BState),
        3 ≤ s.search_thread_pool.length →
        suggestCFO ls o tr s = (s, none, some "AssertionError"))
    ∧ (∀ (ls : LS) (s : BState) (r : TResult),
        s.search_thread_pool.length = 2 ∨ s.points_to_evaluate ≠ [] →
        _create_condition_cfo ls s r = some false) := by
  refine ⟨?_, ?_, ?_⟩
  · intro ls t0 metric points mcs ccs lowCostGiven events
    apply pool_cfoRun_le
    simp [initState]
  · intro ls o tr s h
    unfold suggestCFO
    rw [if_pos h]
  · intro ls s r h
    unfold _create_condition_cfo
    rcases h with h | h
    · by_cases hp : s.points_to_evaluate ≠ []
      · rw [if_pos hp]
      · rw [if_neg hp, if_pos h]
    · rw [if_pos h]

/-- Closed witness for the hypothesis-bearing parts of the C4 theorem. -/
theorem claim_C4_witness :
    suggestCFO testLS
        ⟨(0, 0), fun _ => none, id, [], id⟩ "t"
        { testState with search_thread_pool :=
            [(0, testThread), (1, testThread), (2, testThread)] } =
      ({ testState with search_thread_pool :=
          [(0, testThread), (1, testThread), (2, testThread)] },
        none, some "AssertionError") ∧
    _create_condition_cfo testLS
        { testState with search_thread_pool := [(0, testThread), (1, testThread)] }
        [] = some false := by
  constructor
  · exact claim_C4_cfo_pool_invariant.2.1 testLS ⟨(0, 0), fun _ => none, id, [], id⟩
      "t" _ (by simp)
  · exact claim_C4_cfo_pool_invariant.2.2 testLS _ [] (Or.inl (by simp))
theorem lsGrows_refl (s : BState) : lsGrows s s := fun _ => ⟨le_refl _, le_refl _⟩

theorem lsGrows_of_eq {s s2 : BState}
    (hmin : s2.ls_bound_min = s.ls_bound_min)
    (hmax : s2.ls_bound_max = s.ls_bound_max) : lsGrows s s2 := by
  intro k
  rw [hmin, hmax]
  exact ⟨le_refl _, le_refl _⟩

theorem lsGrows_trans {s1 s2 s3 : BState} (h1 : lsGrows s1 s2)
    (h2 : lsGrows s2 s3) : lsGrows s1 s3 := by
  intro k
  exact ⟨le_trans (h2 k).1 (h1 k).1, le_trans (h1 k).2 (h2 k).2⟩

theorem updateARLoop_mono (nc : Config) :
    ∀ (ks : List String) (amin amax : Box) (k : String),
      qget k (updateARLoop nc ks amin amax).1 ≤ qget k amin ∧
      qget k amax ≤ qget k (updateARLoop nc ks amin amax).2 := by
  intro ks
  induction ks with
  | nil => intro amin amax k; exact ⟨le_refl _, le_refl _⟩
  | cons k2 ks ih =>
    intro amin amax k
    unfold updateARLoop
    dsimp only
    split
    next hgt =>
      refine ⟨(ih amin (aset k2 (qget k2 nc) amax) k).1, ?_⟩
      refine le_trans ?_ (ih amin (aset k2 (qget k2 nc) amax) k).2
      by_cases hk : k = k2
      · subst hk
        rw [qget_aset_self]
        exact le_of_lt hgt
      · rw [qget_aset_ne _ _ _ _ hk]
    · split
      next hlt =>
        refine ⟨?_, (ih (aset k2 (qget k2 nc) amin) amax k).2⟩
        refine le_trans (ih (aset k2 (qget k2 nc) amin) amax k).1 ?_
        by_cases hk : k = k2
        · subst hk
          rw [qget_aset_self]
          exact le_of_lt hlt
        · rw [qget_aset_ne _ _ _ _ hk]
      · exact ih amin amax k

theorem expandARLoop_mono (step : ℚ) (hstep : 0 ≤ step) :
    ∀ (ks : List String) (bmin bmax : Box) (k : String),
      qget k (expandARLoop step ks bmin bmax).1 ≤ qget k bmin ∧
      qget k bmax ≤ qget k (expandARLoop step ks bmin bmax).2 := by
  intro ks
  induction ks with
  | nil => intro bmin bmax k; exact ⟨le_refl _, le_refl _⟩
  | cons k2 ks ih =>
    intro bmin bmax k
    unfold expandARLoop
    constructor
    · refine le_trans (ih _ _ k).1 ?_
      by_cases hk : k = k2
      · subst hk
        rw [qget_aset_self]
        linarith
      · rw [qget_aset_ne _ _ _ _ hk]
    · refine le_trans ?_ (ih _ _ k).2
      by_cases hk : k = k2
      · subst hk
        rw [qget_aset_self]
        linarith
      · rw [qget_aset_ne _ _ _ _ hk]

theorem grow_update_region (ls : LS) (config : Config) (amin amax : Box) :
    ∀ k, qget k (_update_admissible_region ls config amin amax).1 ≤ qget k amin ∧
      qget k amax ≤ qget k (_update_admissible_region ls config amin amax).2 :=
  fun k => updateARLoop_mono (ls.normalize config) (akeys amin) amin amax k

theorem grow_expand_region (ls : LS) (hstep : 0 ≤ ls.STEPSIZE) (bmin bmax : Box) :
    ∀ k, qget k (_expand_admissible_region ls bmin bmax).1 ≤ qget k bmin ∧
      qget k bmax ≤ qget k (_expand_admissible_region ls bmin bmax).2 :=
  fun k => expandARLoop_mono ls.STEPSIZE hstep (akeys bmax) bmin bmax k

theorem grow_create_thread (ls : LS) (c : Config) (r : TResult) (s : BState) :
    lsGrows s (_create_thread ls c r s) := by
  intro k
  unfold _create_thread
  dsimp only
  exact grow_update_region ls c s.ls_bound_min s.ls_bound_max k
theorem boxes_cleanCandBlock (ls : LS) (obj : ℚ) (s : BState) :
    (cleanCandBlock ls obj s).1.ls_bound_min = s.ls_bound_min ∧
    (cleanCandBlock ls obj s).1.ls_bound_max = s.ls_bound_max := by
  unfold cleanCandBlock
  repeat' split
  all_goals exact ⟨rfl, rfl⟩

theorem grow_ctfbc (ls : LS) (s : BState) :
    lsGrows s (_create_thread_from_best_candidate ls s).1 := by
  unfold _create_thread_from_best_candidate
  dsimp only
  split
  · exact lsGrows_refl s
  · split
    · exact lsGrows_refl s
    · split
      · exact lsGrows_refl s
      · exact grow_create_thread _ _ _ _

theorem grow_clean (ls : LS) (hstep : 0 ≤ ls.STEPSIZE) (t : ℕ) (s : BState) :
    lsGrows s (_clean ls t s).1 := by
  unfold _clean
  dsimp only
  split
  · exact lsGrows_refl s
  · split
    · exact lsGrows_refl s
    next tthread heq =>
      split
      · split
        next sc cnew e hcb =>
          have hb := boxes_cleanCandBlock ls tthread.obj_best1
            { s with
              ls_bound_min := (_expand_admissible_region ls s.ls_bound_min s.ls_bound_max).1,
              ls_bound_max := (_expand_admissible_region ls s.ls_bound_min s.ls_bound_max).2 }
          rw [hcb] at hb
          dsimp only at hb
          refine @lsGrows_trans _ sc _ ?_ (lsGrows_refl sc)
          intro k
          rw [hb.1, hb.2]
          exact grow_expand_region ls hstep _ _ k
        next sc cnew hcb =>
          have hb := boxes_cleanCandBlock ls tthread.obj_best1
            { s with
              ls_bound_min := (_expand_admissible_region ls s.ls_bound_min s.ls_bound_max).1,
              ls_bound_max := (_expand_admissible_region ls s.ls_bound_min s.ls_bound_max).2 }
          rw [hcb] at hb
          dsimp only at hb
          have hgrow : lsGrows s sc := by
            intro k
            rw [hb.1, hb.2]
            exact grow_expand_region ls hstep _ _ k
          split
          · refine lsGrows_trans hgrow ?_
            exact grow_ctfbc ls _
          · exact hgrow
      · exact lsGrows_refl s

theorem grow_cleanup (ls : LS) (hstep : 0 ≤ ls.STEPSIZE) (tid? : Option ℕ)
    (s : BState) : lsGrows s (cleanupStage ls tid? s).1 := by
  unfold cleanupStage
  split
  · split
    · exact grow_clean ls hstep _ _
    · exact lsGrows_refl s
  · exact lsGrows_refl s
theorem boxes_synthStage (ls : LS) (sig config : Config) (s : BState) :
    (synthStage ls sig config s).1.ls_bound_min = s.ls_bound_min ∧
    (synthStage ls sig config s).1.ls_bound_max = s.ls_bound_max := by
  unfold synthStage
  dsimp only
  repeat' split
  all_goals exact ⟨rfl, rfl⟩

theorem grow_should_skip (ls : LS) (hstep : 0 ≤ ls.STEPSIZE)
    (notify : Thread → Thread) (choice : ℤ) (tr : String)
    (config? : Option Config) (s : BState) :
    lsGrows s (_should_skip ls notify choice tr config? s).2.1 := by
  unfold _should_skip
  split
  · exact lsGrows_refl s
  next config =>
    have hb := boxes_synthStage ls (ls.config_signature config) config s
    have hgrow : lsGrows s (synthStage ls (ls.config_signature config) config s).1 :=
      lsGrows_of_eq hb.1 hb.2
    dsimp only
    split
    · split
      · split
        next r heqr =>
          split
          · split
            · exact hgrow
            next th heq =>
              split
              · refine lsGrows_trans hgrow ?_
                exact grow_clean ls hstep _ _
              · exact hgrow
          · exact hgrow
        · exact hgrow
      · exact hgrow
    · exact hgrow

theorem grow_suggestTail (ls : LS) (choice : ℕ) (config : Config) (s : BState) :
    lsGrows s (suggestTail ls choice config s).1 := by
  unfold suggestTail
  dsimp only
  split
  · exact lsGrows_refl s
  · intro k
    exact grow_update_region ls config s.ls_bound_min s.ls_bound_max k

theorem grow_suggestOwnership (ls : LS) (hstep : 0 ≤ ls.STEPSIZE)
    (o : SuggOracle) (tr : String) (choice backup : ℕ) (config : Config)
    (s : BState) :
    lsGrows s (suggestOwnership ls o tr choice backup config s).1 := by
  unfold suggestOwnership
  split
  · exact grow_suggestTail ls choice config _
  · split
    · exact grow_suggestTail ls choice _ _
    · split
      · exact lsGrows_refl s
      next bth heq =>
        dsimp only
        have hgrow := grow_should_skip ls hstep o.notify (backup : ℤ) tr
          (o.thread_suggest backup)
          { s with search_thread_pool := aset backup (o.after_suggest bth) s.search_thread_pool }
        split
        · exact hgrow
        · split
          · exact hgrow
          · exact lsGrows_trans hgrow (grow_suggestTail ls backup _ _)

theorem grow_suggestSteady (ls : LS) (hstep : 0 ≤ ls.STEPSIZE) (o : SuggOracle)
    (tr : String) (choice backup : ℕ) (s : BState) :
    lsGrows s (suggestSteady ls o tr choice backup s).1 := by
  unfold suggestSteady
  split
  · exact lsGrows_refl s
  next th heq =>
    dsimp only
    split
    · split
      · intro k
        exact grow_expand_region ls hstep _ _ k
      · exact lsGrows_refl s
    · have hgrow := grow_should_skip ls hstep o.notify (choice : ℤ) tr
        (o.thread_suggest choice)
        { s with search_thread_pool := aset choice (o.after_suggest th) s.search_thread_pool }
      split
      · exact hgrow
      · split
        · split
          · exact hgrow
          · have hgrow2 := grow_should_skip ls hstep o.notify (-1) tr
              (some o.rand_config)
              (_should_skip ls o.notify (choice : ℤ) tr (o.thread_suggest choice) { s with search_thread_pool := aset choice (o.after_suggest th) s.search_thread_pool }).2.1
            split
            · exact lsGrows_trans hgrow hgrow2
            · split
              · exact lsGrows_trans hgrow hgrow2
              · exact lsGrows_trans hgrow (lsGrows_trans hgrow2
                  (grow_suggestOwnership ls hstep o tr choice backup o.rand_config _))
        · exact lsGrows_trans hgrow
            (grow_suggestOwnership ls hstep o tr choice backup _ _)

theorem grow_suggestBootstrap (ls : LS) (tr : String) (s : BState) :
    lsGrows s (suggestBootstrap ls tr s).1 := by
  unfold suggestBootstrap
  dsimp only
  repeat' split
  all_goals exact fun k => ⟨le_refl _, le_refl _⟩

theorem grow_suggest (ls : LS) (hstep : 0 ≤ ls.STEPSIZE) (o : SuggOracle)
    (tr : String) (s : BState) : lsGrows s (suggest ls o tr s).1 := by
  unfold suggest
  split
  · exact grow_suggestSteady ls hstep o tr _ _ s
  · exact grow_suggestBootstrap ls tr s
theorem boxes_notifyStage (o : CompleteOracle) (tr : String) (s : BState) :
    (notifyStage o tr s).2.ls_bound_min = s.ls_bound_min ∧
    (notifyStage o tr s).2.ls_bound_max = s.ls_bound_max := by
  unfold notifyStage
  repeat' split
  all_goals exact ⟨rfl, rfl⟩

theorem grow_gsSync (s : BState) : lsGrows s (gsSync s) :=
  fun _ => ⟨le_refl _, le_refl _⟩

theorem grow_completeError (ls : LS) (hstep : 0 ≤ ls.STEPSIZE) (r : TResult)
    (tid? : Option ℕ) (s : BState) :
    lsGrows s (completeError ls r tid? s).1 := by
  unfold completeError
  dsimp only
  split
  · exact grow_cleanup ls hstep _ _
  · exact lsGrows_refl s

theorem grow_completeNonError (ls : LS) (hstep : 0 ≤ ls.STEPSIZE)
    (cc : BState → TResult → Option Bool) (tr : String) (r : TResult)
    (tid? : Option ℕ) (mcs : Bool) (s : BState) :
    lsGrows s (completeNonError ls cc tr r tid? mcs s).1 := by
  unfold completeNonError
  dsimp only
  split
  · exact lsGrows_refl _
  · split
    · split
      · repeat' split
        all_goals exact fun k => ⟨le_refl _, le_refl _⟩
      · split
        · repeat' split
          all_goals
            (refine lsGrows_trans ?_ (grow_cleanup ls hstep _ _)
             refine lsGrows_trans ?_ (grow_gsSync _)
             refine lsGrows_trans ?_ (grow_create_thread ls _ r _)
             exact fun k => ⟨le_refl _, le_refl _⟩)
        · repeat' split
          all_goals
            (refine lsGrows_trans ?_ (grow_cleanup ls hstep _ _)
             refine lsGrows_trans ?_ (grow_gsSync _)
             exact fun k => ⟨le_refl _, le_refl _⟩)
    · repeat' split
      all_goals refine lsGrows_trans ?_ (grow_cleanup ls hstep _ _)
      all_goals refine lsGrows_trans ?_ (grow_gsSync _)
      all_goals first
        | exact fun k => ⟨le_refl _, le_refl _⟩
        | exact fun k => grow_expand_region ls hstep _ _ k

theorem grow_on_trial_complete (ls : LS) (hstep : 0 ≤ ls.STEPSIZE)
    (cc : BState → TResult → Option Bool) (o : CompleteOracle) (tr : String)
    (r? : Option TResult) (e : Bool) (s : BState) :
    lsGrows s (on_trial_complete ls cc o tr r? e s).1 := by
  unfold on_trial_complete
  dsimp only
  split
  · exact lsGrows_refl s
  next blkOut heq =>
    have hblk : blkOut.2.1.ls_bound_min = s.ls_bound_min ∧
        blkOut.2.1.ls_bound_max = s.ls_bound_max := by
      split at heq
      · split at heq
        · exact absurd heq (by simp)
        · injection heq with h3
          rw [← h3]
          exact ⟨rfl, rfl⟩
      · injection heq with h3
        rw [← h3]
        exact ⟨rfl, rfl⟩
    have hn := boxes_notifyStage o tr blkOut.2.1
    have hgrow : lsGrows s (notifyStage o tr blkOut.2.1).2 :=
      lsGrows_of_eq (hn.1.trans hblk.1) (hn.2.trans hblk.2)
    split
    · split
      · exact lsGrows_trans hgrow (grow_completeError ls hstep _ _ _)
      · exact lsGrows_trans hgrow (grow_completeNonError ls hstep cc tr _ _ _ _)
    · exact lsGrows_trans hgrow (grow_cleanup ls hstep _ _)
theorem aget_aupdate_not_mem {α β : Type} [DecidableEq α] (k : α)
    (e : List (α × β)) : ∀ d : List (α × β), k ∉ akeys e →
    aget k (aupdate d e) = aget k d := by
  induction e with
  | nil => intro d _; rfl
  | cons p ps ih =>
    intro d hk
    simp only [akeys, List.map_cons, List.mem_cons] at hk
    push_neg at hk
    have : aupdate d (p :: ps) = aupdate (aset p.1 p.2 d) ps := rfl
    rw [this, ih _ (by simpa [akeys] using hk.2), aget_aset_ne p.1 k p.2 d hk.1]

theorem aget_aupdate_mem {α β : Type} [DecidableEq α] (k : α)
    (e : List (α × β)) : ∀ d : List (α × β), (akeys e).Nodup → k ∈ akeys e →
    aget k (aupdate d e) = aget k e := by
  induction e with
  | nil => intro d _ hk; simp [akeys] at hk
  | cons p ps ih =>
    intro d hnd hk
    simp only [akeys, List.map_cons, List.nodup_cons] at hnd
    have hstep : aupdate d (p :: ps) = aupdate (aset p.1 p.2 d) ps := rfl
    simp only [akeys, List.map_cons, List.mem_cons] at hk
    rcases hk with rfl | hmem
    · rw [hstep, aget_aupdate_not_mem _ _ _ (by simpa [akeys] using hnd.1),
        aget_aset_self]
      simp [aget]
    · rw [hstep, ih _ (by simpa [akeys] using hnd.2) (by simpa [akeys] using hmem)]
      have hne : p.1 ≠ k := by
        intro hcontra
        exact hnd.1 (hcontra ▸ hmem)
      simp [aget, hne]

theorem aget_aupdate_eq {α β : Type} [DecidableEq α] (d e : List (α × β))
    (hsub : ∀ k, k ∈ akeys d → k ∈ akeys e) (hnd : (akeys e).Nodup) :
    ∀ k, aget k (aupdate d e) = aget k e := by
  intro k
  by_cases hk : k ∈ akeys e
  · exact aget_aupdate_mem k e d hnd hk
  · rw [aget_aupdate_not_mem k e d hk]
    have hkd : k ∉ akeys d := fun h => hk (hsub k h)
    rw [(aget_eq_none k d).mpr hkd, (aget_eq_none k e).mpr hk]
theorem akeys_aset_mem {α β : Type} [DecidableEq α] (k : α) (v : β)
    (l : List (α × β)) (h : k ∈ akeys l) : akeys (aset k v l) = akeys l := by
  rw [akeys_aset, if_pos h]

theorem updateARLoop_keys (nc : Config) :
    ∀ (ks : List String) (amin amax : Box),
      (∀ j ∈ ks, j ∈ akeys amin) → (∀ j ∈ ks, j ∈ akeys amax) →
      akeys (updateARLoop nc ks amin amax).1 = akeys amin ∧
      akeys (updateARLoop nc ks amin amax).2 = akeys amax := by
  intro ks
  induction ks with
  | nil => intro amin amax _ _; exact ⟨rfl, rfl⟩
  | cons k ks ih =>
    intro amin amax hmin hmax
    have hkmin := hmin k (List.mem_cons_self _ _)
    have hkmax := hmax k (List.mem_cons_self _ _)
    simp only [updateARLoop]
    split
    · have h2 := ih amin (aset k (qget k nc) amax)
        (fun j hj => hmin j (List.mem_cons_of_mem _ hj))
        (fun j hj => by
          rw [akeys_aset_mem _ _ _ hkmax]
          exact hmax j (List.mem_cons_of_mem _ hj))
      exact ⟨h2.1, h2.2.trans (akeys_aset_mem _ _ _ hkmax)⟩
    · split
      · have h2 := ih (aset k (qget k nc) amin) amax
          (fun j hj => by
            rw [akeys_aset_mem _ _ _ hkmin]
            exact hmin j (List.mem_cons_of_mem _ hj))
          (fun j hj => hmax j (List.mem_cons_of_mem _ hj))
        exact ⟨h2.1.trans (akeys_aset_mem _ _ _ hkmin), h2.2⟩
      · exact ih amin amax
          (fun j hj => hmin j (List.mem_cons_of_mem _ hj))
          (fun j hj => hmax j (List.mem_cons_of_mem _ hj))

theorem expandARLoop_keys (step : ℚ) :
    ∀ (ks : List String) (bmin bmax : Box),
      (∀ j ∈ ks, j ∈ akeys bmin) → (∀ j ∈ ks, j ∈ akeys bmax) →
      akeys (expandARLoop step ks bmin bmax).1 = akeys bmin ∧
      akeys (expandARLoop step ks bmin bmax).2 = akeys bmax := by
  intro ks
  induction ks with
  | nil => intro bmin bmax _ _; exact ⟨rfl, rfl⟩
  | cons k ks ih =>
    intro bmin bmax hmin hmax
    have hkmin := hmin k (List.mem_cons_self _ _)
    have hkmax := hmax k (List.mem_cons_self _ _)
    simp only [expandARLoop]
    have h2 := ih (aset k (qget k bmin - step) bmin) (aset k (qget k bmax + step) bmax)
      (fun j hj => by
        rw [akeys_aset_mem _ _ _ hkmin]
        exact hmin j (List.mem_cons_of_mem _ hj))
      (fun j hj => by
        rw [akeys_aset_mem _ _ _ hkmax]
        exact hmax j (List.mem_cons_of_mem _ hj))
    exact ⟨h2.1.trans (akeys_aset_mem _ _ _ hkmin),
           h2.2.trans (akeys_aset_mem _ _ _ hkmax)⟩

theorem keys_update_region (ls : LS) (c : Config) (amin amax : Box)
    (K : List String) (h1 : akeys amin = K) (h2 : akeys amax = K) :
    akeys (_update_admissible_region ls c amin amax).1 = K ∧
    akeys (_update_admissible_region ls c amin amax).2 = K := by
  have h := updateARLoop_keys (ls.normalize c) (akeys amin) amin amax
    (fun j hj => hj) (fun j hj => by rw [h2, ← h1]; exact hj)
  exact ⟨h.1.trans h1, h.2.trans h2⟩

theorem keys_expand_region (ls : LS) (bmin bmax : Box)
    (K : List String) (h1 : akeys bmin = K) (h2 : akeys bmax = K) :
    akeys (_expand_admissible_region ls bmin bmax).1 = K ∧
    akeys (_expand_admissible_region ls bmin bmax).2 = K := by
  have h := expandARLoop_keys ls.STEPSIZE (akeys bmax) bmin bmax
    (fun j hj => by rw [h1, ← h2]; exact hj) (fun j hj => hj)
  exact ⟨h.1.trans h1, h.2.trans h2⟩

theorem boxKeys_create_thread (ls : LS) (c : Config) (r : TResult) (s : BState)
    (K : List String) (hK : boxKeys s K) : boxKeys (_create_thread ls c r s) K := by
  have h := keys_update_region ls c s.ls_bound_min s.ls_bound_max K hK.1 hK.2.1
  exact ⟨h.1, h.2, hK.2.2.1, hK.2.2.2⟩

theorem mem_aset_cases {α β : Type} [DecidableEq α] (p : α × β) (k : α) (v : β) :
    ∀ l : List (α × β), p ∈ aset k v l → p = (k, v) ∨ p ∈ l := by
  intro l
  induction l with
  | nil => intro h; simpa [aset] using h
  | cons q qs ih =>
    intro h
    unfold aset at h
    split at h
    · rcases List.mem_cons.mp h with rfl | hmem
      · exact Or.inl rfl
      · exact Or.inr (List.mem_cons_of_mem _ hmem)
    · rcases List.mem_cons.mp h with rfl | hmem
      · exact Or.inr (List.mem_cons_self _ _)
      · rcases ih hmem with h1 | h2
        · exact Or.inl h1
        · exact Or.inr (List.mem_cons_of_mem _ h2)

theorem nonconv_create_thread (ls : LS) (c : Config) (r : TResult) (s : BState)
    (hpool : poolNonConv s)
    (hcreate : ∀ c2 q1 q2, (ls.create c2 q1 q2).converged = false) :
    poolNonConv (_create_thread ls c r s) := by
  intro p hp
  rcases mem_aset_cases p s.thread_count _ _ hp with rfl | hmem
  · exact hcreate _ _ _
  · exact hpool p hmem

theorem gsSync_box_eq (s : BState) (K : List String) (hK : boxKeys s K)
    (hnd : K.Nodup) (k : String) :
    aget k (gsSync s).gs_admissible_min = aget k s.ls_bound_min ∧
    aget k (gsSync s).gs_admissible_max = aget k s.ls_bound_max := by
  constructor
  · exact aget_aupdate_eq s.gs_admissible_min s.ls_bound_min
      (fun j hj => by rw [hK.1]; rw [hK.2.2.1] at hj; exact hj)
      (by rw [hK.1]; exact hnd) k
  · exact aget_aupdate_eq s.gs_admissible_max s.ls_bound_max
      (fun j hj => by rw [hK.2.1]; rw [hK.2.2.2] at hj; exact hj)
      (by rw [hK.2.1]; exact hnd) k

theorem boxes_clean_nonconv (ls : LS) (tid : ℕ) (s : BState)
    (h : ∀ tth, aget tid s.search_thread_pool = some tth → tth.converged = false) :
    (_clean ls tid s).1.ls_bound_min = s.ls_bound_min ∧
    (_clean ls tid s).1.ls_bound_max = s.ls_bound_max ∧
    (_clean ls tid s).1.gs_admissible_min = s.gs_admissible_min ∧
    (_clean ls tid s).1.gs_admissible_max = s.gs_admissible_max := by
  unfold _clean
  split
  · exact ⟨rfl, rfl, rfl, rfl⟩
  · split
    · exact ⟨rfl, rfl, rfl, rfl⟩
    · next tthread heq =>
      dsimp only
      split
      · next hconv =>
        rw [h tthread heq] at hconv
        exact absurd hconv (by simp)
      · exact ⟨rfl, rfl, rfl, rfl⟩

theorem boxes_cleanup_nonconv (ls : LS) (tid? : Option ℕ) (s : BState)
    (h : poolNonConv s) :
    (cleanupStage ls tid? s).1.ls_bound_min = s.ls_bound_min ∧
    (cleanupStage ls tid? s).1.ls_bound_max = s.ls_bound_max ∧
    (cleanupStage ls tid? s).1.gs_admissible_min = s.gs_admissible_min ∧
    (cleanupStage ls tid? s).1.gs_admissible_max = s.gs_admissible_max := by
  unfold cleanupStage
  split
  · next t =>
    split
    · exact boxes_clean_nonconv ls t s
        (fun tth heq => h (t, tth) (aget_mem _ _ _ heq))
    · exact ⟨rfl, rfl, rfl, rfl⟩
  · exact ⟨rfl, rfl, rfl, rfl⟩

theorem gs_eq_cleanup_sync (ls : LS) (tid? : Option ℕ) (s : BState)
    (K : List String) (hK : boxKeys s K) (hnd : K.Nodup) (hpool : poolNonConv s)
    (k : String) :
    aget k (cleanupStage ls tid? (gsSync s)).1.gs_admissible_min =
      aget k (cleanupStage ls tid? (gsSync s)).1.ls_bound_min ∧
    aget k (cleanupStage ls tid? (gsSync s)).1.gs_admissible_max =
      aget k (cleanupStage ls tid? (gsSync s)).1.ls_bound_max := by
  have hpool2 : poolNonConv (gsSync s) := hpool
  have hb := boxes_cleanup_nonconv ls tid? (gsSync s) hpool2
  have he := gsSync_box_eq s K hK hnd k
  constructor
  · rw [hb.2.2.1, hb.1]
    exact he.1
  · rw [hb.2.2.2, hb.2.1]
    exact he.2
theorem boxKeys_notify (o : CompleteOracle) (tr : String) (s : BState)
    (K : List String) (hK : boxKeys s K) : boxKeys (notifyStage o tr s).2 K := by
  unfold notifyStage
  repeat' split
  all_goals exact hK

theorem nonconv_notify (o : CompleteOracle) (tr : String) (s : BState)
    (hs : poolNonConv s) (ho : ∀ th, (o.notify th).converged = false) :
    poolNonConv (notifyStage o tr s).2 := by
  unfold notifyStage
  repeat' split
  all_goals try exact hs
  intro p hp
  rcases mem_aset_cases p _ _ _ hp with rfl | hmem
  · exact ho _
  · exact hs p hmem

theorem gs_eq_completeNonError (ls : LS) (cc : BState → TResult → Option Bool)
    (tr : String) (r : TResult) (tid? : Option ℕ) (mcs : Bool) (s : BState)
    (K : List String) (hK : boxKeys s K) (hnd : K.Nodup) (hpool : poolNonConv s)
    (hcreate : ∀ c q1 q2, (ls.create c q1 q2).converged = false)
    (herr : (completeNonError ls cc tr r tid? mcs s).2 = none) (k : String) :
    aget k (completeNonError ls cc tr r tid? mcs s).1.gs_admissible_min =
      aget k (completeNonError ls cc tr r tid? mcs s).1.ls_bound_min ∧
    aget k (completeNonError ls cc tr r tid? mcs s).1.gs_admissible_max =
      aget k (completeNonError ls cc tr r tid? mcs s).1.ls_bound_max := by
  revert herr
  unfold completeNonError
  dsimp only
  split
  · intro herr
    exact absurd herr (by simp)
  · split
    · split
      · repeat' split
        all_goals intro herr
        all_goals exact absurd herr (by simp)
      · split
        · repeat' split
          all_goals intro herr
          all_goals
            exact gs_eq_cleanup_sync ls _ _ K
              (boxKeys_create_thread ls _ _ _ K (by exact hK)) hnd
              (nonconv_create_thread ls _ _ _ (by exact hpool) hcreate) k
        · repeat' split
          all_goals intro herr
          all_goals
            exact gs_eq_cleanup_sync ls _ _ K (by exact hK) hnd (by exact hpool) k
    · repeat' split
      all_goals intro herr
      all_goals first
        | exact gs_eq_cleanup_sync ls _ _ K (by exact hK) hnd (by exact hpool) k
        | exact gs_eq_cleanup_sync ls _ _ K
            ⟨(keys_expand_region ls _ _ K (by exact hK.1) (by exact hK.2.1)).1,
             (keys_expand_region ls _ _ K (by exact hK.1) (by exact hK.2.1)).2,
             (by exact hK.2.2.1), (by exact hK.2.2.2)⟩
            hnd (by exact hpool) k

theorem gs_eq_on_trial_complete (ls : LS) (cc : BState → TResult → Option Bool)
    (o : CompleteOracle) (tr : String) (r? : Option TResult) (s : BState)
    (K : List String) (hK : boxKeys s K) (hnd : K.Nodup) (hpool : poolNonConv s)
    (ho : ∀ th, (o.notify th).converged = false)
    (hcreate : ∀ c q1 q2, (ls.create c q1 q2).converged = false)
    (hmc : s.metric_constraints = [])
    (hres : resTruthy r? = true)
    (herr : (on_trial_complete ls cc o tr r? false s).2 = none) (k : String) :
    aget k (on_trial_complete ls cc o tr r? false s).1.gs_admissible_min =
      aget k (on_trial_complete ls cc o tr r? false s).1.ls_bound_min ∧
    aget k (on_trial_complete ls cc o tr r? false s).1.gs_admissible_max =
      aget k (on_trial_complete ls cc o tr r? false s).1.ls_bound_max := by
  revert herr
  unfold on_trial_complete
  dsimp only
  split
  · next heq =>
    rw [if_neg (fun hc => hc.2.2 hmc)] at heq
    exact absurd heq (by simp)
  · next blkOut heq =>
    rw [if_neg (fun hc => hc.2.2 hmc)] at heq
    injection heq with heq2
    subst heq2
    dsimp only
    rw [if_pos hres, if_neg (by simp)]
    intro herr
    exact gs_eq_completeNonError ls cc tr (r?.getD []) _ true _ K
      (boxKeys_notify o tr s K hK) hnd (nonconv_notify o tr s hpool ho)
      hcreate herr k
/-- C5, counterexample to the literal second half: a successful completion
whose owning thread has converged runs `_expand_admissible_region` inside
`_clean` (line 408) AFTER the global-box `update` of lines 310–311, so at
return from `on_trial_complete` the global admissible box differs from the
local bounding box even though the call succeeded. -/
theorem claim_C5_counterexample :
    (on_trial_complete testLS (_create_condition testLS) ⟨id⟩ "t"
        (some [("metric", 1)]) false c5state).2 = none ∧
    qget "x" (on_trial_complete testLS (_create_condition testLS) ⟨id⟩ "t"
        (some [("metric", 1)]) false c5state).1.gs_admissible_min ≠
      qget "x" (on_trial_complete testLS (_create_condition testLS) ⟨id⟩ "t"
        (some [("metric", 1)]) false c5state).1.ls_bound_min := by
  constructor <;>
    simp [on_trial_complete, c5state, testState, initState, testLS, testThread,
      convThread, notifyStage, aget, resTruthy, completeNonError, configOfResult,
      strStartsWith, strDrop, ExtQ.improvedBy, ExtQ.infTimes, cleanupStage, _clean,
      _inferior, _expand_admissible_region, expandARLoop, cleanCandBlock,
      candTruthy, gsSync, aupdate, aset, aerase, akeys, qget,
      metricConstraintsBlock]

/-- C5: the local admissible bounding box only grows monotonically — for
every dimension the minimum never increases and the maximum never decreases
— under `_update_admissible_region`, `_expand_admissible_region`,
`_create_thread`, `suggest` and `on_trial_complete` (given the nonnegative
FLOW2 step size); and on every non-error completion with a truthy result the
global admissible box is reset to the local bounding box by the `update` of
lines 310–311: pointwise equality still holds at return whenever no thread
involved has converged — stated for a coordinator without metric constraints
and with the boxes sharing one duplicate-free key set — while a converged
thread's pruning pass expands the local box after the sync (see the
counterexample). -/
theorem claim_C5_admissible_region (ls : LS) (hstep : 0 ≤ ls.STEPSIZE) :
    (∀ config amin amax k,
        qget k (_update_admissible_region ls config amin amax).1 ≤ qget k amin ∧
        qget k amax ≤ qget k (_update_admissible_region ls config amin amax).2) ∧
    (∀ bmin bmax k,
        qget k (_expand_admissible_region ls bmin bmax).1 ≤ qget k bmin ∧
        qget k bmax ≤ qget k (_expand_admissible_region ls bmin bmax).2) ∧
    (∀ config r s, lsGrows s (_create_thread ls config r s)) ∧
    (∀ o tr s, lsGrows s (suggest ls o tr s).1) ∧
    (∀ cc o tr r? e s, lsGrows s (on_trial_complete ls cc o tr r? e s).1) ∧
    (∀ cc o tr r? s K, boxKeys s K → K.Nodup → poolNonConv s →
        (∀ th, (o.notify th).converged = false) →
        (∀ c q1 q2, (ls.create c q1 q2).converged = false) →
        s.metric_constraints = [] → resTruthy r? = true →
        (on_trial_complete ls cc o tr r? false s).2 = none →
        ∀ k, aget k (on_trial_complete ls cc o tr r? false s).1.gs_admissible_min =
               aget k (on_trial_complete ls cc o tr r? false s).1.ls_bound_min ∧
             aget k (on_trial_complete ls cc o tr r? false s).1.gs_admissible_max =
               aget k (on_trial_complete ls cc o tr r? false s).1.ls_bound_max) :=
  ⟨grow_update_region ls, grow_expand_region ls hstep, grow_create_thread ls,
    fun o tr s => grow_suggest ls hstep o tr s,
    fun cc o tr r? e s => grow_on_trial_complete ls hstep cc o tr r? e s,
    fun cc o tr r? s K hK hnd hpool ho hcreate hmc hres herr k =>
      gs_eq_on_trial_complete ls cc o tr r? s K hK hnd hpool ho hcreate hmc
        hres herr k⟩

/-- Witness for C5: the FLOW2 step size `1/100` is nonnegative, and at the
fresh test state a successful completion leaves the synced global box
pointwise equal to the local box. -/
theorem claim_C5_witness :
    (0:ℚ) ≤ testLS.STEPSIZE ∧
    aget "x" (on_trial_complete testLS (_create_condition testLS)
        ⟨fun _ => testThread⟩ "t0"
        (some [("metric", 1)]) false testState).1.gs_admissible_min =
      aget "x" (on_trial_complete testLS (_create_condition testLS)
        ⟨fun _ => testThread⟩ "t0"
        (some [("metric", 1)]) false testState).1.ls_bound_min := by
  refine ⟨by norm_num [testLS], ?_⟩
  exact ((claim_C5_admissible_region testLS (by norm_num [testLS])).2.2.2.2.2
    (_create_condition testLS) ⟨fun _ => testThread⟩ "t0"
    (some [("metric", 1)]) testState []
    ⟨rfl, rfl, rfl, rfl⟩ List.nodup_nil
    (by simp [poolNonConv, testState, initState, testThread])
    (fun th => rfl) (fun c q1 q2 => rfl) rfl rfl
    (by simp [on_trial_complete, testState, initState, testLS, testThread,
      notifyStage, aget, resTruthy, completeNonError, configOfResult,
      strStartsWith, strDrop, ExtQ.improvedBy, ExtQ.infTimes, cleanupStage,
      _clean, gsSync, aupdate, aset, aerase, akeys, qget]) "x").1
theorem aget_aerase_self {α β : Type} [DecidableEq α] (k : α) (l : List (α × β)) :
    aget k (aerase k l) = none := by
  rw [aget_eq_none]
  intro hk
  rcases List.mem_map.mp hk with ⟨pr, hpr, hfst⟩
  have hcond := List.of_mem_filter hpr
  exact (of_decide_eq_true hcond) hfst

theorem result_notifyStage (o : CompleteOracle) (tr : String) (s : BState) :
    (notifyStage o tr s).2.result = s.result := by
  unfold notifyStage
  repeat' split
  all_goals rfl

theorem clean_nonconv_spec (ls : LS) (tid : ℕ) (s : BState) (htid : tid ≠ 0)
    (hmem : tid ∈ akeys s.search_thread_pool)
    (h : ∀ tth, aget tid s.search_thread_pool = some tth → tth.converged = false) :
    (_clean ls tid s).2 = none ∧
    (_clean ls tid s).1.result = s.result ∧
    (_clean ls tid s).1.search_thread_pool.length ≤
      s.search_thread_pool.length := by
  unfold _clean
  split
  · next h0 => exact absurd h0 htid
  · split
    · next heq => exact absurd hmem ((aget_eq_none tid s.search_thread_pool).mp heq)
    · next tthread heq =>
      dsimp only
      split
      · next hconv =>
        rw [h tthread heq] at hconv
        exact absurd hconv (by simp)
      · exact ⟨rfl, rfl, List.length_filter_le _ _⟩

theorem cleanup_nonconv_spec (ls : LS) (tid? : Option ℕ) (s : BState)
    (h : poolNonConv s) :
    (cleanupStage ls tid? s).2 = none ∧
    (cleanupStage ls tid? s).1.result = s.result ∧
    (cleanupStage ls tid? s).1.search_thread_pool.length ≤
      s.search_thread_pool.length := by
  unfold cleanupStage
  split
  · next t =>
    split
    · next hc =>
      exact clean_nonconv_spec ls t s hc.1 hc.2
        (fun tth heq => h (t, tth) (aget_mem _ _ _ heq))
    · exact ⟨rfl, rfl, le_refl _⟩
  · exact ⟨rfl, rfl, le_refl _⟩

theorem error_complete_spec (ls : LS) (cc : BState → TResult → Option Bool)
    (o : CompleteOracle) (tr : String) (r? : Option TResult) (s : BState)
    (hres : resTruthy r? = true) (hpool : poolNonConv s)
    (ho : ∀ th, (o.notify th).converged = false) :
    (ls.config_signature (configOfResult (r?.getD [])) ∈ akeys s.result →
      (on_trial_complete ls cc o tr r? true s).1.result =
        aerase (ls.config_signature (configOfResult (r?.getD []))) s.result ∧
      (on_trial_complete ls cc o tr r? true s).2 = none ∧
      (on_trial_complete ls cc o tr r? true s).1.search_thread_pool.length ≤
        s.search_thread_pool.length) ∧
    (ls.config_signature (configOfResult (r?.getD [])) ∉ akeys s.result →
      (on_trial_complete ls cc o tr r? true s).1.result = s.result ∧
      (on_trial_complete ls cc o tr r? true s).2 = some "KeyError") := by
  have hnr : (notifyStage o tr s).2.result = s.result := result_notifyStage o tr s
  have hnp : poolNonConv (notifyStage o tr s).2 := nonconv_notify o tr s hpool ho
  have hnl := pool_notifyStage_len o tr s
  unfold on_trial_complete
  dsimp only
  rw [if_neg (fun hc => hc.2.1 rfl)]
  dsimp only
  rw [if_pos hres, if_pos rfl]
  unfold completeError
  dsimp only
  constructor
  · intro hsig
    rw [if_pos (by rw [hnr]; exact hsig)]
    have hcs := cleanup_nonconv_spec ls (notifyStage o tr s).1
      { (notifyStage o tr s).2 with
        result := aerase (ls.config_signature (configOfResult (r?.getD [])))
          (notifyStage o tr s).2.result }
      (by exact hnp)
    refine ⟨?_, hcs.1, ?_⟩
    · rw [hcs.2.1]
      dsimp only
      rw [hnr]
    · refine le_trans hcs.2.2 ?_
      dsimp only
      exact le_of_eq hnl
  · intro hsig
    rw [if_neg (by rw [hnr]; exact hsig)]
    exact ⟨hnr, rfl⟩

/-- C7, counterexample to "never aborts": an `error=true` completion whose
configuration signature is NOT in the result cache raises `KeyError` at
`del self._result[sig]` (line 288), because the `del` is unguarded. -/
theorem claim_C7_counterexample :
    (on_trial_complete testLS (_create_condition testLS) ⟨id⟩ "t1"
        (some [("config/x", 1)]) true testState).2 = some "KeyError" := by
  simp [on_trial_complete, testState, initState, testLS, notifyStage, aget,
    resTruthy, completeError, configOfResult, strStartsWith, strDrop,
    cleanupStage, aerase, akeys, metricConstraintsBlock]

/-- C7: an `error=true` completion with a truthy result whose configuration
signature is cached evicts exactly that signature from the result cache (so
the configuration may be proposed again), and — when no thread involved has
converged — the call raises nothing and never adds a thread to the pool.
(When the signature is not cached the unguarded `del` raises `KeyError`;
see the counterexample.) -/
theorem claim_C7_error_eviction (ls : LS) (cc : BState → TResult → Option Bool)
    (o : CompleteOracle) (tr : String) (r? : Option TResult) (s : BState)
    (hres : resTruthy r? = true) (hpool : poolNonConv s)
    (ho : ∀ th, (o.notify th).converged = false)
    (hsig : ls.config_signature (configOfResult (r?.getD [])) ∈ akeys s.result) :
    (on_trial_complete ls cc o tr r? true s).1.result =
      aerase (ls.config_signature (configOfResult (r?.getD []))) s.result ∧
    aget (ls.config_signature (configOfResult (r?.getD [])))
      (on_trial_complete ls cc o tr r? true s).1.result = none ∧
    (on_trial_complete ls cc o tr r? true s).2 = none ∧
    (on_trial_complete ls cc o tr r? true s).1.search_thread_pool.length ≤
      s.search_thread_pool.length := by
  have h := (error_complete_spec ls cc o tr r? s hres hpool ho).1 hsig
  exact ⟨h.1, by rw [h.1]; exact aget_aerase_self _ _, h.2.1, h.2.2⟩

/-- Witness for C7: at the concrete cached state the hypotheses hold and the
error completion evicts the signature without raising. -/
theorem claim_C7_witness :
    (resTruthy (some [("config/x", (1:ℚ))]) = true ∧ poolNonConv c7state ∧
      testLS.config_signature (configOfResult [("config/x", 1)]) ∈
        akeys c7state.result) ∧
    (on_trial_complete testLS (_create_condition testLS) ⟨fun _ => testThread⟩
        "t1" (some [("config/x", 1)]) true c7state).2 = none := by
  refine ⟨⟨rfl, ?_, ?_⟩, ?_⟩
  · simp [poolNonConv, c7state, testState, initState, testThread]
  · simp [c7state, testLS, configOfResult, strStartsWith, strDrop, akeys]
  · exact (claim_C7_error_eviction testLS (_create_condition testLS)
      ⟨fun _ => testThread⟩ "t1" (some [("config/x", 1)]) c7state rfl
      (by simp [poolNonConv, c7state, testState, initState, testThread])
      (fun th => rfl)
      (by simp [c7state, testLS, configOfResult, strStartsWith, strDrop,
        akeys])).2.2.1
/-- C8: in bootstrap mode (initial points still pending), `suggest` runs the
bootstrap branch; there, an initial point whose signature is already cached —
with a resolved result or with the unresolved `{}` placeholder of a running
trial alike — yields no suggestion and changes nothing but the dequeued
point, while an unseen signature caches the empty placeholder, assigns
ownership of the trial to thread 0, marks the init point used, and returns
the completed configuration. -/
theorem claim_C8_bootstrap (ls : LS) (o : SuggOracle) (tr : String) (s : BState)
    (p : Config) (rest : List Config)
    (hcand : s.candidate_start_points = none)
    (hpts : s.points_to_evaluate = p :: rest) :
    suggest ls o tr s = suggestBootstrap ls tr s ∧
    (∀ r0, aget (ls.config_signature
          (ls.complete_config p s.ls_bound_min s.ls_bound_max)) s.result =
        some r0 →
      (suggestBootstrap ls tr s).2.1 = none ∧
      (suggestBootstrap ls tr s).2.2 = none ∧
      (suggestBootstrap ls tr s).1 = { s with points_to_evaluate := rest }) ∧
    (aget (ls.config_signature
          (ls.complete_config p s.ls_bound_min s.ls_bound_max)) s.result =
        none →
      0 ∈ akeys s.search_thread_pool →
      (suggestBootstrap ls tr s).2.1 =
        some (ls.complete_config p s.ls_bound_min s.ls_bound_max) ∧
      (suggestBootstrap ls tr s).2.2 = none ∧
      aget (ls.config_signature
          (ls.complete_config p s.ls_bound_min s.ls_bound_max))
        (suggestBootstrap ls tr s).1.result = some [] ∧
      aget tr (suggestBootstrap ls tr s).1.trial_proposed_by = some 0 ∧
      (suggestBootstrap ls tr s).1.init_used = true) := by
  refine ⟨?_, ?_, ?_⟩
  · unfold suggest
    rw [if_neg (fun hc => by rw [hpts] at hc; exact List.cons_ne_nil p rest hc.2)]
  · intro r0 hr0
    unfold suggestBootstrap
    dsimp only
    rw [if_neg (fun hc => hc.1 hcand), hpts]
    dsimp only
    rw [hr0]
    exact ⟨rfl, rfl, rfl⟩
  · intro hnone h0
    obtain ⟨th, hth⟩ := Option.isSome_iff_exists.mp ((aget_isSome _ _).mpr h0)
    unfold suggestBootstrap
    dsimp only
    rw [if_neg (fun hc => hc.1 hcand), hpts]
    dsimp only
    rw [hnone]
    dsimp only
    rw [hth]
    exact ⟨rfl, rfl, aget_aset_self _ _ _, aget_aset_self _ _ _, rfl⟩

/-- Witness for C8: the unseen initial point is suggested (with the
placeholder cached and ownership given to thread 0), the cached one is
not. -/
theorem claim_C8_witness :
    ((suggestBootstrap testLS "t0" c8state).2.1 = some [] ∧
      aget "t0" (suggestBootstrap testLS "t0" c8state).1.trial_proposed_by =
        some 0) ∧
    (suggestBootstrap testLS "t0" c8stateCached).2.1 = none := by
  constructor
  · have h := (claim_C8_bootstrap testLS
      ⟨(0, 0), fun _ => none, id, [], id⟩ "t0" c8state [] [] rfl rfl).2.2
      (by simp [c8state, testState, initState, testLS, aget])
      (by simp [c8state, testState, initState, akeys])
    exact ⟨h.1, h.2.2.2.1⟩
  · exact ((claim_C8_bootstrap testLS
      ⟨(0, 0), fun _ => none, id, [], id⟩ "t0" c8stateCached [] [] rfl rfl).2.1
      [("metric", 1)]
      (by simp [c8stateCached, c8state, testState, initState, testLS, aget])).1
theorem notifyStage_none (o : CompleteOracle) (tr : String) (s : BState)
    (h : aget tr s.trial_proposed_by = none) : notifyStage o tr s = (none, s) := by
  unfold notifyStage
  rw [h]

/-- C10: a non-error completion with a truthy result for a trial with no
recorded owning thread (never proposed, or its mapping already dropped)
still caches the result under the configuration's signature and still
updates the best-known metric target when the result improves it, while the
thread pool and the trial-ownership map are left untouched (no thread is
notified, spawned or pruned) and nothing is raised; `on_trial_result`, by
contrast, is a complete no-op for such a trial.  Stated for a coordinator
without metric constraints and with the completion's metric present. -/
theorem claim_C10_unknown_trial (ls : LS) (cc : BState → TResult → Option Bool)
    (o : CompleteOracle) (nf : Thread → Thread) (tr : String)
    (r? : Option TResult) (s : BState) (obj : ℚ)
    (htpb : aget tr s.trial_proposed_by = none)
    (hres : resTruthy r? = true)
    (hmc : s.metric_constraints = [])
    (hmetric : aget ls.metric (r?.getD []) = some obj) :
    (on_trial_complete ls cc o tr r? false s).2 = none ∧
    (on_trial_complete ls cc o tr r? false s).1.search_thread_pool =
      s.search_thread_pool ∧
    (on_trial_complete ls cc o tr r? false s).1.trial_proposed_by =
      s.trial_proposed_by ∧
    aget (ls.config_signature (configOfResult (r?.getD [])))
      (on_trial_complete ls cc o tr r? false s).1.result =
      some (r?.getD []) ∧
    (on_trial_complete ls cc o tr r? false s).1.metric_target =
      (if s.metric_target.improvedBy obj ls.metric_op then ExtQ.fin obj
       else s.metric_target) ∧
    on_trial_result nf tr r? s = (s, none) := by
  have hlast : on_trial_result nf tr r? s = (s, none) := by
    unfold on_trial_result
    rw [htpb]
  unfold on_trial_complete
  dsimp only
  split
  · next heq =>
    rw [if_neg (fun hc => hc.2.2 hmc)] at heq
    exact absurd heq (by simp)
  · next blkOut heq =>
    rw [if_neg (fun hc => hc.2.2 hmc)] at heq
    injection heq with heq2
    subst heq2
    dsimp only
    rw [if_pos hres, if_neg (by simp), notifyStage_none o tr s htpb]
    dsimp only
    unfold completeNonError
    dsimp only
    rw [hmetric]
    dsimp only
    rw [if_neg (fun hc => Option.noConfusion hc.1)]
    simp only [Bool.false_and]
    rw [if_neg (by simp)]
    unfold cleanupStage
    dsimp only
    refine ⟨rfl, ?_, ?_, ?_, ?_, hlast⟩
    · split <;> rfl
    · split <;> rfl
    · split <;> exact aget_aset_self _ _ _
    · split <;> rfl

/-- Witness for C10: at the fresh test state (no proposed trials) a
completion for the unknown trial `"t0"` raises nothing, and
`on_trial_result` leaves the state unchanged. -/
theorem claim_C10_witness :
    aget "t0" testState.trial_proposed_by = none ∧
    (on_trial_complete testLS (_create_condition testLS) ⟨id⟩ "t0"
        (some [("metric", 1)]) false testState).2 = none ∧
    on_trial_result id "t0" (some [("metric", 1)]) testState =
      (testState, none) := by
  refine ⟨rfl, ?_, ?_⟩
  · exact (claim_C10_unknown_trial testLS (_create_condition testLS) ⟨id⟩ id
      "t0" (some [("metric", 1)]) testState 1 rfl rfl rfl rfl).1
  · exact (claim_C10_unknown_trial testLS (_create_condition testLS) ⟨id⟩ id
      "t0" (some [("metric", 1)]) testState 1 rfl rfl rfl rfl).2.2.2.2.2
